import Mathlib

/-!
Verification of the oinventory reservation-lifecycle specification.

The provided sources of this repository contain only the Reports page UI
(client/src/pages/Reports.tsx); the reservation engine itself is described
only by the specification, so every engine definition below is modelled from
the specification text and marked as such. The Reports page definitions are
translated directly from src/client/src/pages/Reports.tsx.
-/

namespace OInv

/-- Modelled from the spec: reservation status enumeration (section 3); the
engine source is absent from the provided files, so the data model follows
the specification text. -/
inductive RStatus
  | Pending
  | Approved
  | Rejected
  | Active
  | Completed
  | Cancelled
deriving DecidableEq, Repr

/-- Modelled from the spec: item status enumeration (section 3). -/
inductive IStatus
  | Available
  | Reserved
  | InUse
  | Maintenance
deriving DecidableEq, Repr

/-- Modelled from the spec: the Reservation record (section 3): identifiers,
the half-open interval from startDate to returnDate, status, the
optimistic-concurrency version counter, the creation timestamp, and the
bookkeeping fields set on Rejected and Approved. -/
structure Reservation where
  id : Nat
  itemId : Nat
  userId : Nat
  startDate : Nat
  returnDate : Nat
  status : RStatus
  version : Nat
  createdAt : Nat
  rejectionReason : Option String
  approvedBy : Option Nat
deriving DecidableEq, Repr

/-- Modelled from the spec: the Item record (section 3), reduced to the
fields the workflow engine reads and writes. -/
structure Item where
  id : Nat
  status : IStatus
deriving DecidableEq, Repr

/-- Modelled from the spec: the engine state: the reservation table and the
item table (section 6, persisted state layout). -/
structure EngineState where
  reservations : List Reservation
  items : List Item
deriving DecidableEq, Repr

/-- Modelled from the spec: the actors invoking transitions (section 4.2):
the scheduler sweep (system), administrators, and ordinary users. -/
inductive Actor
  | system
  | admin (id : Nat)
  | user (id : Nat)
deriving DecidableEq, Repr

/-- Modelled from the spec: the error taxonomy (section 7). -/
inductive TError
  | ValidationError
  | InvalidTransition
  | BookingConflict (conflictIds : List Nat)
  | StaleWrite
  | Forbidden
  | MaintenanceBlocked
deriving DecidableEq, Repr

/-- Modelled from the spec: half-open interval overlap (section 3, Invariant
A); adjacent intervals, where one returnDate equals the other startDate, are
not overlapping. -/
def overlaps (s1 e1 s2 e2 : Nat) : Bool :=
  decide (s1 < e2) && decide (s2 < e1)

/-- Modelled from the spec: only Approved or Active reservations occupy the
interval index (section 4.2 and the glossary entry for occupancy). -/
def occupies : RStatus → Bool
  | .Approved => true
  | .Active => true
  | _ => false

/-- Modelled from the spec: the Conflict Detector query (sections 4.1 and
4.3): the ids of occupying reservations of the item whose interval overlaps
the window, excluding one given reservation. -/
def conflictIds (rs : List Reservation) (itemId s e excludeId : Nat) : List Nat :=
  (rs.filter (fun r =>
    r.itemId == itemId && r.id != excludeId && occupies r.status &&
      overlaps r.startDate r.returnDate s e)).map (fun r => r.id)

def findRes (st : EngineState) (resId : Nat) : Option Reservation :=
  st.reservations.find? (fun r => r.id == resId)

def findItem (st : EngineState) (itemId : Nat) : Option Item :=
  st.items.find? (fun i => i.id == itemId)

/-- Modelled from the spec: the Maintenance Gate flag test (section 4.4). -/
def itemUnderMaintenance (st : EngineState) (itemId : Nat) : Bool :=
  match findItem st itemId with
  | some i => i.status == IStatus.Maintenance
  | none => false

/-- Modelled from the spec: the Item.status derivation rule (section 3 and
the glossary): InUse when some Active reservation holds the item, Reserved
when some Approved one does, Available otherwise; the explicit Maintenance
override is handled at the update site. -/
def derivedItemStatus (rs : List Reservation) (itemId : Nat) : IStatus :=
  if rs.any (fun r => r.itemId == itemId && r.status == RStatus.Active) then .InUse
  else if rs.any (fun r => r.itemId == itemId && r.status == RStatus.Approved) then .Reserved
  else .Available

/-- Modelled from the spec: the transition graph (section 4.2) together with
its time conditions: Approved to Active at startDate, Approved to Cancelled
only before startDate, Active to Completed at returnDate. Terminal statuses
have no outgoing edges, so the edge check fails first for them regardless of
the actor, matching the terminal-state property of section 8. -/
def edgeAllowed (src tgt : RStatus) (r : Reservation) (now : Nat) : Bool :=
  match src, tgt with
  | .Pending, .Approved => true
  | .Pending, .Rejected => true
  | .Pending, .Cancelled => true
  | .Approved, .Active => decide (r.startDate ≤ now)
  | .Approved, .Cancelled => decide (now < r.startDate)
  | .Active, .Completed => decide (r.returnDate ≤ now)
  | .Active, .Cancelled => true
  | _, _ => false

def isAdmin : Actor → Bool
  | .admin _ => true
  | _ => false

/-- Modelled from the spec: the edge-to-role map (section 4.2). -/
def actorAuthorized (a : Actor) (src tgt : RStatus) (r : Reservation) : Bool :=
  match src, tgt with
  | .Pending, .Approved => isAdmin a
  | .Pending, .Rejected => isAdmin a
  | .Pending, .Cancelled => isAdmin a || a == Actor.user r.userId
  | .Approved, .Active => a == Actor.system
  | .Approved, .Cancelled => isAdmin a || a == Actor.user r.userId
  | .Active, .Completed => a == Actor.system
  | .Active, .Cancelled => isAdmin a
  | _, _ => false

def actorUserId : Actor → Option Nat
  | .system => none
  | .admin i => some i
  | .user i => some i

/-- Modelled from the spec: the successful write of a transition (section
4.2): set the target status, bump the version, record rejectionReason on
Rejected and approvedBy on Approved. -/
def applyTransition (r : Reservation) (tgt : RStatus) (a : Actor)
    (reason : Option String) : Reservation :=
  { r with
    status := tgt
    version := r.version + 1
    rejectionReason := if tgt == RStatus.Rejected then reason else r.rejectionReason
    approvedBy := if tgt == RStatus.Approved then actorUserId a else r.approvedBy }

/-- Modelled from the spec: the write a validated transition intends to
commit, together with the version presented by the caller (section 5). -/
structure PreparedWrite where
  updated : Reservation
  expectedVersion : Nat
deriving DecidableEq, Repr

/-- Modelled from the spec: the validation phase of a transition (section
4.2) against a snapshot: reservation lookup, edge check (InvalidTransition),
role check (Forbidden), Maintenance Gate on approval (section 4.4), Conflict
Detector for edges entering occupancy (BookingConflict carrying the
conflicting ids), and the presented-version check (StaleWrite). -/
def prepare (st : EngineState) (now resId : Nat) (tgt : RStatus) (a : Actor)
    (version : Nat) (reason : Option String) : Except TError PreparedWrite :=
  match findRes st resId with
  | none => .error .ValidationError
  | some r =>
    if !edgeAllowed r.status tgt r now then .error .InvalidTransition
    else if !actorAuthorized a r.status tgt r then .error .Forbidden
    else if tgt == RStatus.Approved && itemUnderMaintenance st r.itemId then
      .error .MaintenanceBlocked
    else if occupies tgt &&
        !(conflictIds st.reservations r.itemId r.startDate r.returnDate r.id).isEmpty then
      .error (.BookingConflict (conflictIds st.reservations r.itemId r.startDate r.returnDate r.id))
    else if version != r.version then .error .StaleWrite
    else .ok { updated := applyTransition r tgt a reason, expectedVersion := version }

/-- Replace the reservation carrying the id of the update. -/
def replaceRes (rs : List Reservation) (upd : Reservation) : List Reservation :=
  rs.map (fun x => if x.id == upd.id then upd else x)

/-- Modelled from the spec: the derived Item.status refresh inside a commit
(sections 3 and 4.2), keeping an explicitly set Maintenance status. -/
def updateItemRow (rs : List Reservation) (itemId : Nat) (i : Item) : Item :=
  if i.id == itemId then
    if i.status == IStatus.Maintenance then i
    else { i with status := derivedItemStatus rs i.id }
  else i

/-- Modelled from the spec: the commit phase of a transition (sections 4.2
and 5): a compare-and-set on the version, then the atomic reservation write
and derived item-status refresh; a version mismatch fails with StaleWrite and
has no effect. -/
def commitWrite (st : EngineState) (p : PreparedWrite) : Except TError EngineState :=
  match findRes st p.updated.id with
  | none => .error .ValidationError
  | some cur =>
    if cur.version != p.expectedVersion then .error .StaleWrite
    else
      .ok { reservations := replaceRes st.reservations p.updated
            items := st.items.map
              (updateItemRow (replaceRes st.reservations p.updated) p.updated.itemId) }

/-- Modelled from the spec: Transition (sections 4.2 and 6): validation and
commit executed as one serialized unit; errors leave the state untouched. -/
def transition (st : EngineState) (now resId : Nat) (tgt : RStatus) (a : Actor)
    (version : Nat) (reason : Option String) : Except TError EngineState :=
  match prepare st now resId tgt a version reason with
  | .error e => .error e
  | .ok p => commitWrite st p

/-- Modelled from the spec: CreateReservation (section 6): validates the
window (Invariant C), refuses items under Maintenance (section 4.4), requires
a fresh id, and creates the reservation in Pending without consulting the
Conflict Detector against other Pending reservations. -/
def createReservation (st : EngineState) (now id itemId userId s e : Nat) :
    Except TError EngineState :=
  if e ≤ s then .error .ValidationError
  else if itemUnderMaintenance st itemId then .error .MaintenanceBlocked
  else if st.reservations.any (fun r => r.id == id) then .error .ValidationError
  else .ok { st with reservations := st.reservations ++
    [{ id := id, itemId := itemId, userId := userId, startDate := s, returnDate := e,
       status := .Pending, version := 0, createdAt := now,
       rejectionReason := none, approvedBy := none }] }

/-- Modelled from the spec: the Maintenance Gate cascade on one reservation
(section 4.4): Pending is rejected with reason "item under maintenance",
Approved with a startDate after the maintenance point is cancelled, and
everything else, in particular Active, is left untouched. -/
def maintCascade (now itemId : Nat) (r : Reservation) : Reservation :=
  if r.itemId == itemId then
    match r.status with
    | .Pending =>
        { r with status := .Rejected, version := r.version + 1,
                 rejectionReason := some "item under maintenance" }
    | .Approved =>
        if now < r.startDate then
          { r with status := .Cancelled, version := r.version + 1 }
        else r
    | _ => r
  else r

/-- Modelled from the spec: SetMaintenance (sections 4.4 and 6): setting the
flag marks the item Maintenance and runs the cascade over the reservations of
the item; clearing it restores the derived status and touches no
reservation. -/
def setMaintenance (st : EngineState) (itemId : Nat) (flagOn : Bool) (now : Nat) :
    EngineState :=
  if flagOn then
    { reservations := st.reservations.map (maintCascade now itemId)
      items := st.items.map (fun i =>
        if i.id == itemId then { i with status := IStatus.Maintenance } else i) }
  else
    { st with items := st.items.map (fun i =>
        if i.id == itemId then { i with status := derivedItemStatus st.reservations itemId }
        else i) }

/-- Modelled from the spec: one Scheduler Sweep action (section 4.5):
activate a due Approved reservation or complete a due Active one through the
ordinary transition path with the system actor; failures are skipped. -/
def sweepStep (now : Nat) (st : EngineState) (resId : Nat) : EngineState :=
  match findRes st resId with
  | none => st
  | some r =>
    if r.status == RStatus.Approved && decide (r.startDate ≤ now) then
      match transition st now resId RStatus.Active Actor.system r.version none with
      | .ok st2 => st2
      | .error _ => st
    else if r.status == RStatus.Active && decide (r.returnDate ≤ now) then
      match transition st now resId RStatus.Completed Actor.system r.version none with
      | .ok st2 => st2
      | .error _ => st
    else st

/-- Modelled from the spec: one Scheduler Sweep tick (section 4.5), visiting
every reservation once. -/
def sweepTick (st : EngineState) (now : Nat) : EngineState :=
  (st.reservations.map (fun r => r.id)).foldl (sweepStep now) st

/-- Modelled from the spec: the operations that mutate engine state (section
6), used to range over arbitrary sequences of accepted requests; a rejected
request has no effect. -/
inductive Op
  | create (now id itemId userId s e : Nat)
  | transit (now resId : Nat) (tgt : RStatus) (a : Actor) (version : Nat)
      (reason : Option String)
  | maint (itemId : Nat) (flagOn : Bool) (now : Nat)
  | sweep (now : Nat)
deriving DecidableEq, Repr

def applyOp (st : EngineState) : Op → EngineState
  | .create now id itemId userId s e =>
      match createReservation st now id itemId userId s e with
      | .ok st2 => st2
      | .error _ => st
  | .transit now resId tgt a version reason =>
      match transition st now resId tgt a version reason with
      | .ok st2 => st2
      | .error _ => st
  | .maint itemId flagOn now => setMaintenance st itemId flagOn now
  | .sweep now => sweepTick st now

def applyOps (st : EngineState) (ops : List Op) : EngineState :=
  ops.foldl applyOp st

/-- Modelled from the spec: Invariant A in its occupancy form (section 8 and
the glossary): per item, occupying (Approved or Active) reservations have
pairwise non-overlapping half-open intervals. -/
def InvariantA (st : EngineState) : Prop :=
  ∀ r1 ∈ st.reservations, ∀ r2 ∈ st.reservations,
    r1.id ≠ r2.id → r1.itemId = r2.itemId →
    occupies r1.status = true → occupies r2.status = true →
    overlaps r1.startDate r1.returnDate r2.startDate r2.returnDate = false

/-- Reservation ids are pairwise distinct. -/
def DistinctIds (st : EngineState) : Prop :=
  (st.reservations.map (fun r => r.id)).Nodup

/-- Well-formed engine states: distinct reservation ids and Invariant A. -/
def WF (st : EngineState) : Prop :=
  DistinctIds st ∧ InvariantA st

instance (st : EngineState) : Decidable (InvariantA st) := by
  unfold InvariantA
  infer_instance

instance (st : EngineState) : Decidable (DistinctIds st) := by
  unfold DistinctIds
  infer_instance

instance (st : EngineState) : Decidable (WF st) := by
  unfold WF
  infer_instance

/-- The item row exists and is not under Maintenance. -/
def ItemNotMaint (st : EngineState) (itemId : Nat) : Prop :=
  ∃ it, findItem st itemId = some it ∧ it.status ≠ IStatus.Maintenance

/-- The item row exists and carries the given status. -/
def ItemIs (st : EngineState) (itemId : Nat) (s : IStatus) : Prop :=
  ∃ it, findItem st itemId = some it ∧ it.status = s

/-- No reservation of the item other than the given one occupies it. -/
def OthersFree (st : EngineState) (itemId rid : Nat) : Prop :=
  ∀ y ∈ st.reservations, y.itemId = itemId → y.id ≠ rid → occupies y.status = false

/-- Stable insertion in descending key order: the new element goes before the
first element whose key is not larger. -/
def insertKeyDesc {α : Type} (key : α → Nat) (a : α) : List α → List α
  | [] => [a]
  | b :: l => if key b ≤ key a then a :: b :: l else b :: insertKeyDesc key a l

/-- Stable insertion sort in descending key order. -/
def sortKeyDesc {α : Type} (key : α → Nat) (l : List α) : List α :=
  l.foldr (insertKeyDesc key) []

/-- Modelled from the spec: the ListReservations filter (section 6): optional
item, user, status and date-range criteria; the date range matches by
interval overlap. -/
structure ResFilter where
  itemId : Option Nat
  userId : Option Nat
  status : Option RStatus
  dateRange : Option (Nat × Nat)
deriving DecidableEq, Repr

def matchesResFilter (f : ResFilter) (r : Reservation) : Bool :=
  (match f.itemId with | some i => r.itemId == i | none => true) &&
  (match f.userId with | some u => r.userId == u | none => true) &&
  (match f.status with | some s => r.status == s | none => true) &&
  (match f.dateRange with
   | some (s, e) => overlaps r.startDate r.returnDate s e
   | none => true)

/-- Modelled from the spec: ListReservations (section 6): a read-only query,
a pure function of the state, returning the matching reservations stably
sorted by createdAt descending. -/
def listReservations (st : EngineState) (f : ResFilter) : List Reservation :=
  sortKeyDesc (fun r => r.createdAt) (st.reservations.filter (matchesResFilter f))

/-- Damage report record as consumed by the Reports page
(src/client/src/pages/Reports.tsx). -/
structure DamageReport where
  id : Nat
  itemId : Nat
  reportedBy : String
  reportType : String
  severity : String
  status : String
  description : String
  resolutionNotes : Option String
  createdAt : Nat
deriving DecidableEq, Repr

/-- Inventory item as consumed by the Reports page search
(src/client/src/pages/Reports.tsx). -/
structure UiItem where
  id : Nat
  productName : String
deriving DecidableEq, Repr

def charsPrefix : List Char → List Char → Bool
  | [], _ => true
  | _ :: _, [] => false
  | c :: cs, d :: ds => c == d && charsPrefix cs ds

def charsIncludes : List Char → List Char → Bool
  | [], needle => charsPrefix needle []
  | c :: t, needle => charsPrefix needle (c :: t) || charsIncludes t needle

/-- JavaScript String.prototype.includes, modelled on character lists. -/
def strIncludes (hay needle : String) : Bool :=
  charsIncludes hay.data needle.data

/-- One report passes the Reports page filter (Reports.tsx lines 94 to 101):
search match on the lower-cased item name, the status filter, and the role
check letting an admin see everything and a user only the reports they
filed. -/
def reportMatches (items : List UiItem) (searchQuery filterStatus userRole userId : String)
    (report : DamageReport) : Bool :=
  let itemName := match items.find? (fun i => i.id == report.itemId) with
    | some i => i.productName.toLower
    | none => ""
  let matchesSearch := searchQuery == "" || strIncludes itemName searchQuery.toLower
  let matchesFilter := filterStatus == "all" || report.status == filterStatus
  let matchesRole := userRole == "admin" || report.reportedBy == userId
  matchesSearch && matchesFilter && matchesRole

/-- The Reports page filteredReports pipeline (Reports.tsx lines 94 to 102):
filter, then sort by createdAt descending. -/
def filteredReports (reports : List DamageReport) (items : List UiItem)
    (searchQuery filterStatus userRole userId : String) : List DamageReport :=
  sortKeyDesc (fun r => r.createdAt)
    (reports.filter (reportMatches items searchQuery filterStatus userRole userId))

/-- The damage-report form state of the Reports page (Reports.tsx). -/
structure ReportForm where
  itemId : String
  reportType : String
  severity : String
  description : String
deriving DecidableEq, Repr

/-- The payload handed to the create mutation (Reports.tsx lines 129 to
135). -/
structure CreateReportPayload where
  itemId : String
  reportedBy : String
  reportType : String
  severity : String
  description : String
deriving DecidableEq, Repr

/-- The Reports page submit handler (Reports.tsx lines 123 to 136): returns
the payload passed to the create mutation, or none when the guard rejects the
form (empty itemId, or a description that is blank after trimming); the
handler itself never touches the form state, which is reset only by the
mutation success callback. -/
def handleSubmitReport (formData : ReportForm) (userId : String) :
    Option CreateReportPayload :=
  if formData.itemId == "" || formData.description.trim == "" then none
  else some { itemId := formData.itemId, reportedBy := userId,
              reportType := formData.reportType, severity := formData.severity,
              description := formData.description }

/-- Shorthand for building concrete reservations in test states. -/
def mkRes (id itemId userId s e : Nat) (status : RStatus) (version createdAt : Nat) :
    Reservation :=
  { id := id, itemId := itemId, userId := userId, startDate := s, returnDate := e,
    status := status, version := version, createdAt := createdAt,
    rejectionReason := none, approvedBy := none }

/-- Concrete state: one available item, no reservations. -/
def exSt1 : EngineState :=
  { reservations := [], items := [{ id := 1, status := .Available }] }

/-- Concrete state: a Pending request overlapping an Approved reservation. -/
def exSt2 : EngineState :=
  { reservations := [mkRes 1 1 7 0 5 .Pending 0 0, mkRes 2 1 8 3 9 .Approved 1 0]
    items := [{ id := 1, status := .Reserved }] }

/-- Concrete state: a single Completed (terminal) reservation. -/
def exSt3 : EngineState :=
  { reservations := [mkRes 1 1 7 0 5 .Completed 2 0]
    items := [{ id := 1, status := .Available }] }

/-- Concrete state: a single Pending reservation, used for the maintenance
cascade. -/
def exSt4 : EngineState :=
  { reservations := [mkRes 1 1 7 10 20 .Pending 0 0]
    items := [{ id := 1, status := .Available }] }

/-- Concrete state: a single due Approved reservation. -/
def exSt5w : EngineState :=
  { reservations := [mkRes 1 1 7 0 10 .Approved 0 0]
    items := [{ id := 1, status := .Reserved }] }

/-- Concrete state: a due Active reservation next to a future Approved one
for the same item. -/
def exSt5c : EngineState :=
  { reservations := [mkRes 1 1 7 0 4 .Active 0 0, mkRes 2 1 8 10 20 .Approved 0 1]
    items := [{ id := 1, status := .InUse }] }

/-- Concrete state: a single Pending reservation with version 3. -/
def exSt6 : EngineState :=
  { reservations := [mkRes 1 1 7 0 5 .Pending 3 0]
    items := [{ id := 1, status := .Available }] }

/-- Concrete state: an Approved reservation and a Pending one starting
exactly when the first ends. -/
def exSt7 : EngineState :=
  { reservations := [mkRes 1 1 7 0 5 .Approved 0 0, mkRes 2 1 8 5 10 .Pending 0 1]
    items := [{ id := 1, status := .Reserved }] }

/-- Concrete item list for the Reports page examples. -/
def exItems9 : List UiItem := [{ id := 1, productName := "Laptop" }]

/-- Concrete damage report filed by user u2. -/
def exRep9 : DamageReport :=
  { id := 1, itemId := 1, reportedBy := "u2", reportType := "user-damage",
    severity := "low", status := "open", description := "cracked screen",
    resolutionNotes := none, createdAt := 5 }

/-- Concrete valid report form. -/
def exForm : ReportForm :=
  { itemId := "item1", reportType := "user-damage", severity := "medium",
    description := "broken hinge" }

/-! Basic helper lemmas about lists, lookups and the interval predicate. -/

theorem overlaps_comm (s1 e1 s2 e2 : Nat) :
    overlaps s1 e1 s2 e2 = overlaps s2 e2 s1 e1 := by
  simp [overlaps, Bool.and_comm]

theorem filter_eq_nil_of_all {α : Type} (p : α → Bool) :
    ∀ l : List α, (∀ a ∈ l, p a = false) → l.filter p = [] := by
  intro l h
  induction l with
  | nil => rfl
  | cons a t ih =>
    have ha := h a (List.mem_cons_self a t)
    rw [List.filter_cons, if_neg (by simp [ha])]
    exact ih (fun x hx => h x (List.mem_cons_of_mem a hx))

theorem all_of_filter_eq_nil {α : Type} {p : α → Bool} :
    ∀ {l : List α}, l.filter p = [] → ∀ a ∈ l, p a = false := by
  intro l h a ha
  by_contra hcon
  have hp : p a = true := by
    cases hpa : p a with
    | true => rfl
    | false => exact absurd hpa hcon
  have : a ∈ l.filter p := List.mem_filter.mpr ⟨ha, hp⟩
  rw [h] at this
  exact absurd this (List.not_mem_nil a)

theorem id_inj_of_nodup :
    ∀ {rs : List Reservation}, (rs.map (fun r => r.id)).Nodup →
    ∀ {x y : Reservation}, x ∈ rs → y ∈ rs → x.id = y.id → x = y := by
  intro rs h
  induction rs with
  | nil => intro x y hx; exact absurd hx (List.not_mem_nil x)
  | cons a t ih =>
    rw [List.map_cons, List.nodup_cons] at h
    intro x y hx hy hxy
    rcases List.mem_cons.mp hx with hxa | hxt
    · rcases List.mem_cons.mp hy with hya | hyt
      · rw [hxa, hya]
      · exfalso
        apply h.1
        rw [← hxa, hxy]
        exact List.mem_map_of_mem (fun r => r.id) hyt
    · rcases List.mem_cons.mp hy with hya | hyt
      · exfalso
        apply h.1
        rw [← hya, ← hxy]
        exact List.mem_map_of_mem (fun r => r.id) hxt
      · exact ih h.2 hxt hyt hxy

theorem find_res_of_mem_nodup :
    ∀ {rs : List Reservation}, (rs.map (fun r => r.id)).Nodup →
    ∀ {r : Reservation}, r ∈ rs → rs.find? (fun x => x.id == r.id) = some r := by
  intro rs h
  induction rs with
  | nil => intro r hr; exact absurd hr (List.not_mem_nil r)
  | cons a t ih =>
    rw [List.map_cons, List.nodup_cons] at h
    intro r hr
    rcases List.mem_cons.mp hr with hra | hrt
    · subst hra
      exact List.find?_cons_of_pos _ (by simp)
    · have hne : (a.id == r.id) = false := by
        simp only [beq_eq_false_iff_ne, ne_eq]
        intro hcon
        apply h.1
        rw [hcon]
        exact List.mem_map_of_mem (fun r => r.id) hrt
      rw [List.find?_cons_of_neg _ (by simp [hne])]
      exact ih h.2 hrt

theorem findRes_eq_of_mem {st : EngineState} (h : DistinctIds st)
    {r : Reservation} (hr : r ∈ st.reservations) : findRes st r.id = some r :=
  find_res_of_mem_nodup h hr

theorem findRes_mem {st : EngineState} {resId : Nat} {r : Reservation}
    (h : findRes st resId = some r) : r ∈ st.reservations ∧ r.id = resId := by
  refine ⟨List.mem_of_find?_eq_some h, ?_⟩
  have := List.find?_some h
  simpa using this

theorem find?_id_map {α : Type} (idf : α → Nat) (g : α → α)
    (hg : ∀ x, idf (g x) = idf x) (q : Nat) :
    ∀ l : List α,
      (l.map g).find? (fun x => idf x == q) =
        Option.map g (l.find? (fun x => idf x == q)) := by
  intro l
  induction l with
  | nil => rfl
  | cons a t ih =>
    rw [List.map_cons]
    simp only [List.find?_cons]
    have hgg : (idf (g a) == q) = (idf a == q) := by rw [hg]
    cases hq : (idf a == q) with
    | true => simp [hgg, hq]
    | false =>
      simp only [hgg, hq]
      exact ih

theorem map_ids_preserve {g : Reservation → Reservation}
    (hg : ∀ x, (g x).id = x.id) :
    ∀ rs : List Reservation,
      (rs.map g).map (fun r => r.id) = rs.map (fun r => r.id) := by
  intro rs
  induction rs with
  | nil => rfl
  | cons a t ih => simp [hg, ih]

theorem replaceRes_id_preserve (upd : Reservation) (x : Reservation) :
    (if x.id == upd.id then upd else x).id = x.id := by
  by_cases h : x.id == upd.id
  · simp only [h, if_true]
    exact (beq_iff_eq.mp h).symm
  · simp [h]

theorem replaceRes_ids (rs : List Reservation) (upd : Reservation) :
    (replaceRes rs upd).map (fun r => r.id) = rs.map (fun r => r.id) :=
  map_ids_preserve (replaceRes_id_preserve upd) rs

theorem mem_replaceRes_of_ne {rs : List Reservation} {upd r : Reservation}
    (hr : r ∈ rs) (hne : r.id ≠ upd.id) : r ∈ replaceRes rs upd := by
  unfold replaceRes
  rw [List.mem_map]
  exact ⟨r, hr, by simp [beq_eq_false_iff_ne.mpr hne]⟩

theorem mem_replaceRes_self {rs : List Reservation} {upd r : Reservation}
    (hr : r ∈ rs) (heq : r.id = upd.id) : upd ∈ replaceRes rs upd := by
  unfold replaceRes
  rw [List.mem_map]
  exact ⟨r, hr, by simp [beq_iff_eq.mpr heq]⟩

theorem of_mem_replaceRes {rs : List Reservation} {upd y : Reservation}
    (hy : y ∈ replaceRes rs upd) :
    ∃ x ∈ rs, y = if x.id == upd.id then upd else x := by
  rcases List.mem_map.mp hy with ⟨x, hx, hxy⟩
  exact ⟨x, hx, hxy.symm⟩

theorem updateItemRow_id (rs : List Reservation) (itemId : Nat) (i : Item) :
    (updateItemRow rs itemId i).id = i.id := by
  unfold updateItemRow
  by_cases h1 : i.id == itemId
  · by_cases h2 : i.status == IStatus.Maintenance <;> simp [h1, h2]
  · simp [h1]

theorem derived_ne_maint (rs : List Reservation) (itemId : Nat) :
    derivedItemStatus rs itemId ≠ IStatus.Maintenance := by
  unfold derivedItemStatus
  by_cases h1 : rs.any (fun r => r.itemId == itemId && r.status == RStatus.Active)
  · simp [h1]
  · by_cases h2 : rs.any (fun r => r.itemId == itemId && r.status == RStatus.Approved) <;>
      simp [h1, h2]

theorem derived_inuse_of_active {rs : List Reservation} {itemId : Nat}
    {r : Reservation} (hr : r ∈ rs) (hitem : r.itemId = itemId)
    (hact : r.status = RStatus.Active) :
    derivedItemStatus rs itemId = IStatus.InUse := by
  unfold derivedItemStatus
  have : rs.any (fun r => r.itemId == itemId && r.status == RStatus.Active) = true := by
    rw [List.any_eq_true]
    exact ⟨r, hr, by simp [hitem, hact]⟩
  simp [this]

theorem derived_available_of_free {rs : List Reservation} {itemId : Nat}
    (h : ∀ y ∈ rs, y.itemId = itemId → occupies y.status = false) :
    derivedItemStatus rs itemId = IStatus.Available := by
  unfold derivedItemStatus
  have h1 : rs.any (fun r => r.itemId == itemId && r.status == RStatus.Active) = false := by
    rw [List.any_eq_false]
    intro y hy
    by_cases hi : y.itemId = itemId
    · have hocc := h y hy hi
      cases hs : y.status <;> simp [occupies, hs] at hocc ⊢
    · simp [hi]
  have h2 : rs.any (fun r => r.itemId == itemId && r.status == RStatus.Approved) = false := by
    rw [List.any_eq_false]
    intro y hy
    by_cases hi : y.itemId = itemId
    · have hocc := h y hy hi
      cases hs : y.status <;> simp [occupies, hs] at hocc ⊢
    · simp [hi]
  simp [h1, h2]

/-! Equation and inversion lemmas for the transition pipeline. -/

theorem applyTransition_id (r : Reservation) (tgt : RStatus) (a : Actor)
    (reason : Option String) : (applyTransition r tgt a reason).id = r.id := rfl

theorem prepare_ok_of (st : EngineState) (now resId : Nat) (tgt : RStatus) (a : Actor)
    (version : Nat) (reason : Option String) (r : Reservation)
    (hfind : findRes st resId = some r)
    (hedge : edgeAllowed r.status tgt r now = true)
    (hauth : actorAuthorized a r.status tgt r = true)
    (hmaint : tgt = RStatus.Approved → itemUnderMaintenance st r.itemId = false)
    (hconf : occupies tgt = true →
      conflictIds st.reservations r.itemId r.startDate r.returnDate r.id = [])
    (hv : version = r.version) :
    prepare st now resId tgt a version reason =
      .ok ⟨applyTransition r tgt a reason, version⟩ := by
  unfold prepare
  rw [hfind]
  have hm : (tgt == RStatus.Approved && itemUnderMaintenance st r.itemId) = false := by
    by_cases ht : tgt = RStatus.Approved
    · simp [ht, hmaint ht]
    · simp [ht]
  have hc : (occupies tgt &&
      !(conflictIds st.reservations r.itemId r.startDate r.returnDate r.id).isEmpty) = false := by
    cases ho : occupies tgt with
    | true => simp [hconf ho]
    | false => simp
  simp [hedge, hauth, hm, hc, hv]

theorem commitWrite_ok (st : EngineState) (p : PreparedWrite) (cur : Reservation)
    (hfind : findRes st p.updated.id = some cur)
    (hv : cur.version = p.expectedVersion) :
    commitWrite st p = .ok
      { reservations := replaceRes st.reservations p.updated
        items := st.items.map
          (updateItemRow (replaceRes st.reservations p.updated) p.updated.itemId) } := by
  unfold commitWrite
  rw [hfind]
  simp [hv]

theorem commitWrite_stale (st : EngineState) (p : PreparedWrite) (cur : Reservation)
    (hfind : findRes st p.updated.id = some cur)
    (hv : cur.version ≠ p.expectedVersion) :
    commitWrite st p = .error .StaleWrite := by
  unfold commitWrite
  rw [hfind]
  simp [hv]

theorem transition_ok_of (st : EngineState) (now resId : Nat) (tgt : RStatus) (a : Actor)
    (version : Nat) (reason : Option String) (r : Reservation)
    (hfind : findRes st resId = some r)
    (hedge : edgeAllowed r.status tgt r now = true)
    (hauth : actorAuthorized a r.status tgt r = true)
    (hmaint : tgt = RStatus.Approved → itemUnderMaintenance st r.itemId = false)
    (hconf : occupies tgt = true →
      conflictIds st.reservations r.itemId r.startDate r.returnDate r.id = [])
    (hv : version = r.version) :
    transition st now resId tgt a version reason = .ok
      { reservations := replaceRes st.reservations (applyTransition r tgt a reason)
        items := st.items.map
          (updateItemRow (replaceRes st.reservations (applyTransition r tgt a reason))
            r.itemId) } := by
  unfold transition
  rw [prepare_ok_of st now resId tgt a version reason r hfind hedge hauth hmaint hconf hv]
  have hrid : r.id = resId := (findRes_mem hfind).2
  have hfind2 : findRes st (applyTransition r tgt a reason).id = some r := by
    rw [applyTransition_id, hrid]
    exact hfind
  exact commitWrite_ok st ⟨applyTransition r tgt a reason, version⟩ r hfind2 hv.symm

theorem transition_error_of_prepare {st : EngineState} {now resId : Nat} {tgt : RStatus}
    {a : Actor} {version : Nat} {reason : Option String} {e : TError}
    (h : prepare st now resId tgt a version reason = .error e) :
    transition st now resId tgt a version reason = .error e := by
  unfold transition
  rw [h]

theorem transition_ok_inv {st st2 : EngineState} {now resId : Nat} {tgt : RStatus}
    {a : Actor} {version : Nat} {reason : Option String}
    (h : transition st now resId tgt a version reason = .ok st2) :
    ∃ r, findRes st resId = some r ∧ r.id = resId ∧
      edgeAllowed r.status tgt r now = true ∧
      actorAuthorized a r.status tgt r = true ∧
      (occupies tgt = true →
        conflictIds st.reservations r.itemId r.startDate r.returnDate r.id = []) ∧
      version = r.version ∧
      st2 = { reservations := replaceRes st.reservations (applyTransition r tgt a reason)
              items := st.items.map
                (updateItemRow (replaceRes st.reservations (applyTransition r tgt a reason))
                  r.itemId) } := by
  unfold transition at h
  cases hp : prepare st now resId tgt a version reason with
  | error e => rw [hp] at h; simp at h
  | ok p =>
    rw [hp] at h
    unfold prepare at hp
    cases hf : findRes st resId with
    | none => rw [hf] at hp; simp at hp
    | some r =>
      rw [hf] at hp
      split at hp
      · simp at hp
      · rename_i r2 heq2
        have hr2 : r = r2 := Option.some.inj heq2
        subst hr2
        split at hp
        · simp at hp
        · split at hp
          · simp at hp
          · split at hp
            · simp at hp
            · split at hp
              · simp at hp
              · split at hp
                · simp at hp
                · rename_i h1 h2 h3 h4 h5
                  have hedge : edgeAllowed r.status tgt r now = true := by
                    simpa using h1
                  have hauth : actorAuthorized a r.status tgt r = true := by
                    simpa using h2
                  have hconf : occupies tgt = true →
                      conflictIds st.reservations r.itemId r.startDate r.returnDate r.id = [] := by
                    intro ho
                    rw [ho] at h4
                    simpa using h4
                  have hv : version = r.version := by simpa using h5
                  have hpv : p = ⟨applyTransition r tgt a reason, version⟩ := by
                    injection hp with hp2
                    exact hp2.symm
                  subst hpv
                  have hrid : r.id = resId := (findRes_mem hf).2
                  have hfind2 : findRes st (applyTransition r tgt a reason).id = some r := by
                    rw [applyTransition_id, hrid]
                    exact hf
                  have hcommit := commitWrite_ok st ⟨applyTransition r tgt a reason, version⟩ r
                    hfind2 hv.symm
                  have hcm : commitWrite st ⟨applyTransition r tgt a reason, version⟩ =
                      Except.ok st2 := h
                  rw [hcommit] at hcm
                  have hst2 := (Except.ok.inj hcm).symm
                  exact ⟨r, rfl, hrid, hedge, hauth, hconf, hv, hst2⟩

/-! Preservation of well-formedness by every engine operation. -/

theorem WF_transition {st st2 : EngineState} {now resId : Nat} {tgt : RStatus}
    {a : Actor} {version : Nat} {reason : Option String}
    (hwf : WF st) (h : transition st now resId tgt a version reason = .ok st2) :
    WF st2 := by
  obtain ⟨r, hf, hrid, hedge, hauth, hconf, hv, hst2⟩ := transition_ok_inv h
  subst hst2
  constructor
  · show ((replaceRes st.reservations (applyTransition r tgt a reason)).map
      (fun r => r.id)).Nodup
    rw [replaceRes_ids]
    exact hwf.1
  · intro y1 hy1 y2 hy2 hid hitem hocc1 hocc2
    obtain ⟨x1, hx1, hy1e⟩ := of_mem_replaceRes hy1
    obtain ⟨x2, hx2, hy2e⟩ := of_mem_replaceRes hy2
    by_cases c1 : x1.id = (applyTransition r tgt a reason).id
    · have e1 : y1 = applyTransition r tgt a reason := by
        rw [hy1e, if_pos (beq_iff_eq.mpr c1)]
      by_cases c2 : x2.id = (applyTransition r tgt a reason).id
      · have e2 : y2 = applyTransition r tgt a reason := by
          rw [hy2e, if_pos (beq_iff_eq.mpr c2)]
        rw [e1, e2] at hid
        exact absurd rfl hid
      · have e2 : y2 = x2 := by
          rw [hy2e, if_neg (by simp [c2])]
        have hocct : occupies tgt = true := by
          rw [e1] at hocc1
          exact hocc1
        have hfil := List.map_eq_nil_iff.mp (hconf hocct)
        have hpred := all_of_filter_eq_nil hfil x2 hx2
        have bitem : (x2.itemId == r.itemId) = true := by
          rw [e1, e2] at hitem
          exact beq_iff_eq.mpr hitem.symm
        have bid : (x2.id != r.id) = true := by
          refine bne_iff_ne.mpr (fun hcon => ?_)
          rw [e1, e2] at hid
          apply hid
          rw [applyTransition_id]
          exact hcon.symm
        have bocc : occupies x2.status = true := by
          rw [e2] at hocc2
          exact hocc2
        simp only [bitem, bid, bocc, Bool.true_and, Bool.and_true] at hpred
        rw [e1, e2]
        rw [show (applyTransition r tgt a reason).startDate = r.startDate from rfl,
          show (applyTransition r tgt a reason).returnDate = r.returnDate from rfl,
          overlaps_comm]
        exact hpred
    · have e1 : y1 = x1 := by
        rw [hy1e, if_neg (by simp [c1])]
      by_cases c2 : x2.id = (applyTransition r tgt a reason).id
      · have e2 : y2 = applyTransition r tgt a reason := by
          rw [hy2e, if_pos (beq_iff_eq.mpr c2)]
        have hocct : occupies tgt = true := by
          rw [e2] at hocc2
          exact hocc2
        have hfil := List.map_eq_nil_iff.mp (hconf hocct)
        have hpred := all_of_filter_eq_nil hfil x1 hx1
        have bitem : (x1.itemId == r.itemId) = true := by
          rw [e1, e2] at hitem
          exact beq_iff_eq.mpr hitem
        have bid : (x1.id != r.id) = true := by
          refine bne_iff_ne.mpr (fun hcon => c1 ?_)
          rw [hcon]
          rfl
        have bocc : occupies x1.status = true := by
          rw [e1] at hocc1
          exact hocc1
        simp only [bitem, bid, bocc, Bool.true_and, Bool.and_true] at hpred
        rw [e1, e2]
        rw [show (applyTransition r tgt a reason).startDate = r.startDate from rfl,
          show (applyTransition r tgt a reason).returnDate = r.returnDate from rfl]
        exact hpred
      · have e2 : y2 = x2 := by
          rw [hy2e, if_neg (by simp [c2])]
        rw [e1] at hid hitem hocc1
        rw [e2] at hid hitem hocc2
        rw [e1, e2]
        exact hwf.2 x1 hx1 x2 hx2 hid hitem hocc1 hocc2

theorem WF_append_pending (st : EngineState) (nr : Reservation)
    (hp : nr.status = RStatus.Pending)
    (hfresh : ∀ r ∈ st.reservations, r.id ≠ nr.id)
    (hwf : WF st) : WF { st with reservations := st.reservations ++ [nr] } := by
  constructor
  · show ((st.reservations ++ [nr]).map (fun r => r.id)).Nodup
    rw [List.map_append, List.nodup_append]
    refine ⟨hwf.1, List.nodup_singleton _, ?_⟩
    intro x hx hx2
    obtain ⟨rr, hrr, hrx⟩ := List.mem_map.mp hx
    have hx2b : x = nr.id := by simpa using hx2
    exact hfresh rr hrr (hrx.trans hx2b)
  · intro y1 hy1 y2 hy2 hid hitem hocc1 hocc2
    rcases List.mem_append.mp hy1 with hm1 | hs1
    · rcases List.mem_append.mp hy2 with hm2 | hs2
      · exact hwf.2 y1 hm1 y2 hm2 hid hitem hocc1 hocc2
      · exfalso
        have hy2p : y2.status = RStatus.Pending := by
          have : y2 = nr := by simpa using hs2
          rw [this, hp]
        rw [hy2p] at hocc2
        simp [occupies] at hocc2
    · exfalso
      have hy1p : y1.status = RStatus.Pending := by
        have : y1 = nr := by simpa using hs1
        rw [this, hp]
      rw [hy1p] at hocc1
      simp [occupies] at hocc1

theorem WF_create {st st2 : EngineState} {now id itemId userId s e : Nat}
    (hwf : WF st) (h : createReservation st now id itemId userId s e = .ok st2) :
    WF st2 := by
  unfold createReservation at h
  split at h
  · simp at h
  · split at h
    · simp at h
    · split at h
      · simp at h
      · rename_i h1 h2 h3
        have hfresh : ∀ r ∈ st.reservations, (r.id == id) = false := by
          intro r hr
          have h3b : st.reservations.any (fun r => r.id == id) = false := by
            cases hany : st.reservations.any (fun r => r.id == id) with
            | true => exact absurd hany h3
            | false => rfl
          simpa using List.any_eq_false.mp h3b r hr
        have hst2 := (Except.ok.inj h).symm
        subst hst2
        refine WF_append_pending st _ rfl ?_ hwf
        intro r hr hcon
        have hcon2 : r.id = id := hcon
        have hb := hfresh r hr
        rw [hcon2] at hb
        simp at hb

theorem maintCascade_spec (now itemId : Nat) (r : Reservation) :
    (maintCascade now itemId r).id = r.id ∧
    (maintCascade now itemId r).itemId = r.itemId ∧
    (maintCascade now itemId r).startDate = r.startDate ∧
    (maintCascade now itemId r).returnDate = r.returnDate ∧
    (occupies (maintCascade now itemId r).status = true →
      (maintCascade now itemId r).status = r.status) := by
  unfold maintCascade
  by_cases hi : (r.itemId == itemId) = true
  · rw [if_pos hi]
    cases hs : r.status with
    | Pending => simp [occupies]
    | Approved =>
      by_cases h2 : now < r.startDate
      · rw [if_pos h2]
        simp [occupies]
      · rw [if_neg h2]
        simp [occupies, hs]
    | Active => simp [occupies, hs]
    | Rejected => simp [occupies, hs]
    | Completed => simp [occupies, hs]
    | Cancelled => simp [occupies, hs]
  · rw [if_neg hi]
    simp

theorem WF_setMaintenance (st : EngineState) (itemId : Nat) (flagOn : Bool) (now : Nat)
    (hwf : WF st) : WF (setMaintenance st itemId flagOn now) := by
  unfold setMaintenance
  cases flagOn with
  | false =>
    simp only [Bool.false_eq_true, if_false]
    exact hwf
  | true =>
    simp only [if_true]
    constructor
    · show ((st.reservations.map (maintCascade now itemId)).map (fun r => r.id)).Nodup
      rw [map_ids_preserve (fun x => (maintCascade_spec now itemId x).1)]
      exact hwf.1
    · intro y1 hy1 y2 hy2 hid hitem hocc1 hocc2
      obtain ⟨x1, hx1, e1⟩ := List.mem_map.mp hy1
      obtain ⟨x2, hx2, e2⟩ := List.mem_map.mp hy2
      subst e1
      subst e2
      obtain ⟨sid1, sitem1, sstart1, sret1, socc1⟩ := maintCascade_spec now itemId x1
      obtain ⟨sid2, sitem2, sstart2, sret2, socc2⟩ := maintCascade_spec now itemId x2
      rw [sstart1, sret1, sstart2, sret2]
      rw [sid1, sid2] at hid
      rw [sitem1, sitem2] at hitem
      rw [socc1 hocc1] at hocc1
      rw [socc2 hocc2] at hocc2
      exact hwf.2 x1 hx1 x2 hx2 hid hitem hocc1 hocc2

theorem sweepStep_some (now : Nat) (st : EngineState) (pid : Nat) (r : Reservation)
    (hf : findRes st pid = some r) :
    sweepStep now st pid =
      (if (r.status == RStatus.Approved && decide (r.startDate ≤ now)) = true then
        match transition st now pid RStatus.Active Actor.system r.version none with
        | .ok st2 => st2
        | .error _ => st
      else if (r.status == RStatus.Active && decide (r.returnDate ≤ now)) = true then
        match transition st now pid RStatus.Completed Actor.system r.version none with
        | .ok st2 => st2
        | .error _ => st
      else st) := by
  unfold sweepStep
  rw [hf]

theorem sweepStep_none (now : Nat) (st : EngineState) (pid : Nat)
    (hf : findRes st pid = none) : sweepStep now st pid = st := by
  unfold sweepStep
  rw [hf]

theorem sweepStep_cases (now : Nat) (st : EngineState) (pid : Nat) :
    sweepStep now st pid = st ∨
    ∃ st2 tgt r, (tgt = RStatus.Active ∨ tgt = RStatus.Completed) ∧
      findRes st pid = some r ∧
      transition st now pid tgt Actor.system r.version none = .ok st2 ∧
      sweepStep now st pid = st2 := by
  cases hf : findRes st pid with
  | none => exact Or.inl (sweepStep_none now st pid hf)
  | some r =>
    have hs := sweepStep_some now st pid r hf
    by_cases c1 : (r.status == RStatus.Approved && decide (r.startDate ≤ now)) = true
    · rw [if_pos c1] at hs
      cases ht : transition st now pid RStatus.Active Actor.system r.version none with
      | ok st2 =>
        rw [ht] at hs
        exact Or.inr ⟨st2, RStatus.Active, r, Or.inl rfl, rfl, ht, hs⟩
      | error e2 =>
        rw [ht] at hs
        exact Or.inl hs
    · rw [if_neg c1] at hs
      by_cases c2 : (r.status == RStatus.Active && decide (r.returnDate ≤ now)) = true
      · rw [if_pos c2] at hs
        cases ht : transition st now pid RStatus.Completed Actor.system r.version none with
        | ok st2 =>
          rw [ht] at hs
          exact Or.inr ⟨st2, RStatus.Completed, r, Or.inr rfl, rfl, ht, hs⟩
        | error e2 =>
          rw [ht] at hs
          exact Or.inl hs
      · rw [if_neg c2] at hs
        exact Or.inl hs

theorem WF_sweepStep (now : Nat) (st : EngineState) (pid : Nat) (hwf : WF st) :
    WF (sweepStep now st pid) := by
  rcases sweepStep_cases now st pid with heq | ⟨st2, tgt, r, _, _, ht, heq⟩
  · rw [heq]
    exact hwf
  · rw [heq]
    exact WF_transition hwf ht

theorem WF_foldl_sweepStep (now : Nat) :
    ∀ (l : List Nat) (st : EngineState), WF st → WF (l.foldl (sweepStep now) st) := by
  intro l
  induction l with
  | nil => intro st h; exact h
  | cons a t ih =>
    intro st h
    rw [List.foldl_cons]
    exact ih _ (WF_sweepStep now st a h)

theorem WF_sweepTick (st : EngineState) (now : Nat) (hwf : WF st) :
    WF (sweepTick st now) :=
  WF_foldl_sweepStep now _ st hwf

theorem WF_applyOp (st : EngineState) (op : Op) (hwf : WF st) : WF (applyOp st op) := by
  cases op with
  | create now id itemId userId s e =>
    show WF (match createReservation st now id itemId userId s e with
      | .ok st2 => st2
      | .error _ => st)
    cases hc : createReservation st now id itemId userId s e with
    | ok st2 => exact WF_create hwf hc
    | error e2 => exact hwf
  | transit now resId tgt a version reason =>
    show WF (match transition st now resId tgt a version reason with
      | .ok st2 => st2
      | .error _ => st)
    cases hc : transition st now resId tgt a version reason with
    | ok st2 => exact WF_transition hwf hc
    | error e2 => exact hwf
  | maint itemId flagOn now => exact WF_setMaintenance st itemId flagOn now hwf
  | sweep now => exact WF_sweepTick st now hwf

theorem WF_applyOps (st : EngineState) (ops : List Op) (hwf : WF st) :
    WF (applyOps st ops) := by
  unfold applyOps
  induction ops generalizing st with
  | nil => exact hwf
  | cons o t ih =>
    rw [List.foldl_cons]
    exact ih (applyOp st o) (WF_applyOp st o hwf)

/-! Frame lemmas about the item table and the Scheduler Sweep. -/

theorem findItem_id {st : EngineState} {I : Nat} {it : Item}
    (h : findItem st I = some it) : it.id = I := by
  have := List.find?_some h
  simpa using this

theorem findItem_updated (st : EngineState) (rs2 : List Reservation) (J I : Nat) :
    findItem { reservations := rs2, items := st.items.map (updateItemRow rs2 J) } I =
      Option.map (updateItemRow rs2 J) (findItem st I) := by
  show (st.items.map (updateItemRow rs2 J)).find? (fun i => i.id == I) = _
  exact find?_id_map (fun i => i.id) (updateItemRow rs2 J) (updateItemRow_id rs2 J) I st.items

theorem ItemNotMaint_after (st : EngineState) (rs2 : List Reservation) (J I : Nat)
    (h : ItemNotMaint st I) :
    ItemNotMaint { reservations := rs2, items := st.items.map (updateItemRow rs2 J) } I := by
  obtain ⟨it, hit, hns⟩ := h
  refine ⟨updateItemRow rs2 J it, ?_, ?_⟩
  · rw [findItem_updated, hit]
    rfl
  · unfold updateItemRow
    by_cases h1 : (it.id == J) = true
    · rw [if_pos h1]
      by_cases h2 : (it.status == IStatus.Maintenance) = true
      · rw [if_pos h2]
        exact hns
      · rw [if_neg h2]
        exact derived_ne_maint rs2 it.id
    · rw [if_neg h1]
      exact hns

theorem mem_after_transition {st st2 : EngineState} {now resId : Nat} {tgt : RStatus}
    {a : Actor} {version : Nat} {reason : Option String}
    (h : transition st now resId tgt a version reason = .ok st2)
    {r0 : Reservation} (hmem : r0 ∈ st.reservations) (hne : r0.id ≠ resId) :
    r0 ∈ st2.reservations := by
  obtain ⟨r, hf, hrid, _, _, _, _, hst2⟩ := transition_ok_inv h
  subst hst2
  show r0 ∈ replaceRes st.reservations (applyTransition r tgt a reason)
  apply mem_replaceRes_of_ne hmem
  rw [applyTransition_id, hrid]
  exact hne

theorem conflictIds_nil_of_invariant (st : EngineState) (R : Reservation)
    (hwf : WF st) (hmem : R ∈ st.reservations) (hocc : occupies R.status = true) :
    conflictIds st.reservations R.itemId R.startDate R.returnDate R.id = [] := by
  have hfil : st.reservations.filter (fun y =>
      y.itemId == R.itemId && y.id != R.id && occupies y.status &&
        overlaps y.startDate y.returnDate R.startDate R.returnDate) = [] := by
    apply filter_eq_nil_of_all
    intro y hy
    by_cases b1 : (y.itemId == R.itemId) = true
    · by_cases b2 : (y.id != R.id) = true
      · by_cases b3 : occupies y.status = true
        · have hover := hwf.2 y hy R hmem (bne_iff_ne.mp b2) (beq_iff_eq.mp b1) b3 hocc
          simp [b1, b2, b3, hover]
        · simp [b3]
      · simp [b2]
    · simp [b1]
  unfold conflictIds
  rw [hfil]
  rfl

theorem transition_activate_ok (st : EngineState) (now : Nat) (R : Reservation)
    (hwf : WF st) (hmem : R ∈ st.reservations)
    (hst : R.status = RStatus.Approved) (hdue : R.startDate ≤ now) :
    transition st now R.id RStatus.Active Actor.system R.version none = .ok
      { reservations :=
          replaceRes st.reservations (applyTransition R RStatus.Active Actor.system none)
        items := st.items.map
          (updateItemRow
            (replaceRes st.reservations (applyTransition R RStatus.Active Actor.system none))
            R.itemId) } := by
  apply transition_ok_of st now R.id RStatus.Active Actor.system R.version none R
    (findRes_eq_of_mem hwf.1 hmem)
  · rw [hst]
    unfold edgeAllowed
    simp [hdue]
  · rw [hst]
    simp [actorAuthorized]
  · intro hcon
    exact RStatus.noConfusion hcon
  · intro _
    exact conflictIds_nil_of_invariant st R hwf hmem (by rw [hst]; rfl)
  · rfl

theorem transition_complete_ok (st : EngineState) (now : Nat) (R : Reservation)
    (hids : DistinctIds st) (hmem : R ∈ st.reservations)
    (hst : R.status = RStatus.Active) (hdue : R.returnDate ≤ now) :
    transition st now R.id RStatus.Completed Actor.system R.version none = .ok
      { reservations :=
          replaceRes st.reservations (applyTransition R RStatus.Completed Actor.system none)
        items := st.items.map
          (updateItemRow
            (replaceRes st.reservations (applyTransition R RStatus.Completed Actor.system none))
            R.itemId) } := by
  apply transition_ok_of st now R.id RStatus.Completed Actor.system R.version none R
    (findRes_eq_of_mem hids hmem)
  · rw [hst]
    unfold edgeAllowed
    simp [hdue]
  · rw [hst]
    simp [actorAuthorized]
  · intro hcon
    exact RStatus.noConfusion hcon
  · intro hcon
    simp [occupies] at hcon
  · rfl

theorem edge_src_of_active {src : RStatus} {r : Reservation} {now : Nat}
    (h : edgeAllowed src RStatus.Active r now = true) : src = RStatus.Approved := by
  cases src with
  | Approved => rfl
  | Pending => simp [edgeAllowed] at h
  | Rejected => simp [edgeAllowed] at h
  | Active => simp [edgeAllowed] at h
  | Completed => simp [edgeAllowed] at h
  | Cancelled => simp [edgeAllowed] at h

theorem edge_src_of_completed {src : RStatus} {r : Reservation} {now : Nat}
    (h : edgeAllowed src RStatus.Completed r now = true) : src = RStatus.Active := by
  cases src with
  | Active => rfl
  | Pending => simp [edgeAllowed] at h
  | Rejected => simp [edgeAllowed] at h
  | Approved => simp [edgeAllowed] at h
  | Completed => simp [edgeAllowed] at h
  | Cancelled => simp [edgeAllowed] at h

theorem foldl_preserve {P : EngineState → Prop} (now rid : Nat)
    (hstep : ∀ st pid, pid ≠ rid → P st → P (sweepStep now st pid)) :
    ∀ (l : List Nat) (st : EngineState), (∀ pid ∈ l, pid ≠ rid) → P st →
      P (l.foldl (sweepStep now) st) := by
  intro l
  induction l with
  | nil => intro st _ h; exact h
  | cons a t ih =>
    intro st hl h
    rw [List.foldl_cons]
    exact ih _ (fun p hp => hl p (List.mem_cons_of_mem a hp))
      (hstep st a (hl a (List.mem_cons_self a t)) h)

theorem sweepStep_pre (now I : Nat) (r0 : Reservation) (st : EngineState) (pid : Nat)
    (hpid : pid ≠ r0.id)
    (h : WF st ∧ r0 ∈ st.reservations ∧ ItemNotMaint st I) :
    WF (sweepStep now st pid) ∧ r0 ∈ (sweepStep now st pid).reservations ∧
      ItemNotMaint (sweepStep now st pid) I := by
  obtain ⟨hwf, hmem, hnm⟩ := h
  rcases sweepStep_cases now st pid with heq | ⟨st2, tgt, r, htgt, hf, ht, heq⟩
  · rw [heq]
    exact ⟨hwf, hmem, hnm⟩
  · rw [heq]
    refine ⟨WF_transition hwf ht, ?_, ?_⟩
    · exact mem_after_transition ht hmem (fun hcon => hpid hcon.symm)
    · obtain ⟨r2, hf2, hrid2, _, _, _, _, hst2⟩ := transition_ok_inv ht
      subst hst2
      exact ItemNotMaint_after st _ _ I hnm

theorem sweepStep_post_inuse (now I : Nat) (r0 : Reservation)
    (hI : r0.itemId = I) (hact : r0.status = RStatus.Active)
    (st : EngineState) (pid : Nat) (hpid : pid ≠ r0.id)
    (h : WF st ∧ r0 ∈ st.reservations ∧ ItemIs st I IStatus.InUse) :
    WF (sweepStep now st pid) ∧ r0 ∈ (sweepStep now st pid).reservations ∧
      ItemIs (sweepStep now st pid) I IStatus.InUse := by
  obtain ⟨hwf, hmem, hitem⟩ := h
  rcases sweepStep_cases now st pid with heq | ⟨st2, tgt, r, htgt, hf, ht, heq⟩
  · rw [heq]
    exact ⟨hwf, hmem, hitem⟩
  · rw [heq]
    have hmem2 : r0 ∈ st2.reservations :=
      mem_after_transition ht hmem (fun hcon => hpid hcon.symm)
    refine ⟨WF_transition hwf ht, hmem2, ?_⟩
    obtain ⟨r2, hf2, hrid2, _, _, _, _, hst2⟩ := transition_ok_inv ht
    obtain ⟨it, hit, hstat⟩ := hitem
    subst hst2
    refine ⟨updateItemRow
      (replaceRes st.reservations (applyTransition r2 tgt Actor.system none))
      r2.itemId it, ?_, ?_⟩
    · rw [findItem_updated, hit]
      rfl
    · unfold updateItemRow
      by_cases h1 : (it.id == r2.itemId) = true
      · rw [if_pos h1]
        rw [if_neg (by simp [hstat])]
        have hitid : it.id = I := findItem_id hit
        show derivedItemStatus _ it.id = IStatus.InUse
        rw [hitid]
        exact derived_inuse_of_active hmem2 hI hact
      · rw [if_neg h1]
        exact hstat

theorem sweepStep_pre_free (now I : Nat) (rid : Nat) (r0 : Reservation)
    (st : EngineState) (pid : Nat) (hpid : pid ≠ r0.id) (hr0 : r0.id = rid)
    (h : WF st ∧ r0 ∈ st.reservations ∧ ItemNotMaint st I ∧ OthersFree st I rid) :
    WF (sweepStep now st pid) ∧ r0 ∈ (sweepStep now st pid).reservations ∧
      ItemNotMaint (sweepStep now st pid) I ∧ OthersFree (sweepStep now st pid) I rid := by
  obtain ⟨hwf, hmem, hnm, hfree⟩ := h
  rcases sweepStep_cases now st pid with heq | ⟨st2, tgt, r, htgt, hf, ht, heq⟩
  · rw [heq]
    exact ⟨hwf, hmem, hnm, hfree⟩
  · rw [heq]
    obtain ⟨r2, hf2, hrid2, hedge, _, _, _, hst2⟩ := transition_ok_inv ht
    have hrr : r = r2 := by
      rw [hf] at hf2
      exact Option.some.inj hf2
    subst hrr
    have hocc : occupies r.status = true := by
      rcases htgt with hA | hC
      · subst hA
        rw [edge_src_of_active hedge]
        rfl
      · subst hC
        rw [edge_src_of_completed hedge]
        rfl
    have hrI : r.itemId ≠ I := by
      intro hcon
      have := hfree r (findRes_mem hf).1 hcon (by rw [hrid2, ← hr0]; exact hpid)
      rw [hocc] at this
      exact Bool.noConfusion this
    have hmem2 : r0 ∈ st2.reservations :=
      mem_after_transition ht hmem (fun hcon => hpid hcon.symm)
    refine ⟨WF_transition hwf ht, hmem2, ?_, ?_⟩
    · subst hst2
      exact ItemNotMaint_after st _ _ I hnm
    · subst hst2
      intro y hy hyI hyid
      obtain ⟨x, hx, hxy⟩ := of_mem_replaceRes hy
      by_cases hc : (x.id == (applyTransition r tgt Actor.system none).id) = true
      · rw [if_pos hc] at hxy
        exfalso
        apply hrI
        rw [← hyI, hxy]
        rfl
      · rw [if_neg hc] at hxy
        rw [hxy] at hyI hyid ⊢
        exact hfree x hx hyI hyid

theorem sweepStep_post_avail (now I : Nat) (rid : Nat) (r0 : Reservation)
    (st : EngineState) (pid : Nat) (hpid : pid ≠ r0.id) (hr0 : r0.id = rid)
    (h : WF st ∧ r0 ∈ st.reservations ∧ OthersFree st I rid ∧
      ItemIs st I IStatus.Available) :
    WF (sweepStep now st pid) ∧ r0 ∈ (sweepStep now st pid).reservations ∧
      OthersFree (sweepStep now st pid) I rid ∧
      ItemIs (sweepStep now st pid) I IStatus.Available := by
  obtain ⟨hwf, hmem, hfree, hitem⟩ := h
  rcases sweepStep_cases now st pid with heq | ⟨st2, tgt, r, htgt, hf, ht, heq⟩
  · rw [heq]
    exact ⟨hwf, hmem, hfree, hitem⟩
  · rw [heq]
    obtain ⟨r2, hf2, hrid2, hedge, _, _, _, hst2⟩ := transition_ok_inv ht
    have hrr : r = r2 := by
      rw [hf] at hf2
      exact Option.some.inj hf2
    subst hrr
    have hocc : occupies r.status = true := by
      rcases htgt with hA | hC
      · subst hA
        rw [edge_src_of_active hedge]
        rfl
      · subst hC
        rw [edge_src_of_completed hedge]
        rfl
    have hrI : r.itemId ≠ I := by
      intro hcon
      have := hfree r (findRes_mem hf).1 hcon (by rw [hrid2, ← hr0]; exact hpid)
      rw [hocc] at this
      exact Bool.noConfusion this
    have hmem2 : r0 ∈ st2.reservations :=
      mem_after_transition ht hmem (fun hcon => hpid hcon.symm)
    refine ⟨WF_transition hwf ht, hmem2, ?_, ?_⟩
    · subst hst2
      intro y hy hyI hyid
      obtain ⟨x, hx, hxy⟩ := of_mem_replaceRes hy
      by_cases hc : (x.id == (applyTransition r tgt Actor.system none).id) = true
      · rw [if_pos hc] at hxy
        exfalso
        apply hrI
        rw [← hyI, hxy]
        rfl
      · rw [if_neg hc] at hxy
        rw [hxy] at hyI hyid ⊢
        exact hfree x hx hyI hyid
    · subst hst2
      obtain ⟨it, hit, hstat⟩ := hitem
      refine ⟨updateItemRow
        (replaceRes st.reservations (applyTransition r tgt Actor.system none))
        r.itemId it, ?_, ?_⟩
      · rw [findItem_updated, hit]
        rfl
      · unfold updateItemRow
        have hitid : it.id = I := findItem_id hit
        rw [if_neg (by simp [hitid]; exact fun hcon => hrI hcon.symm)]
        exact hstat

theorem sweepStep_keep (now : Nat) (r0 : Reservation) (st : EngineState) (pid : Nat)
    (hpid : pid ≠ r0.id) (h : WF st ∧ r0 ∈ st.reservations) :
    WF (sweepStep now st pid) ∧ r0 ∈ (sweepStep now st pid).reservations := by
  obtain ⟨hwf, hmem⟩ := h
  rcases sweepStep_cases now st pid with heq | ⟨st2, tgt, r, htgt, hf, ht, heq⟩
  · rw [heq]
    exact ⟨hwf, hmem⟩
  · rw [heq]
    exact ⟨WF_transition hwf ht,
      mem_after_transition ht hmem (fun hcon => hpid hcon.symm)⟩

theorem activate_at (st : EngineState) (now : Nat) (R : Reservation)
    (hwf : WF st) (hmem : R ∈ st.reservations)
    (hst : R.status = RStatus.Approved) (hdue : R.startDate ≤ now)
    (hnm : ItemNotMaint st R.itemId) :
    WF (sweepStep now st R.id) ∧
    (applyTransition R RStatus.Active Actor.system none) ∈
      (sweepStep now st R.id).reservations ∧
    ItemIs (sweepStep now st R.id) R.itemId IStatus.InUse := by
  have hf := findRes_eq_of_mem hwf.1 hmem
  have hs := sweepStep_some now st R.id R hf
  have hcond : (R.status == RStatus.Approved && decide (R.startDate ≤ now)) = true := by
    simp [hst, hdue]
  rw [if_pos hcond] at hs
  have ht := transition_activate_ok st now R hwf hmem hst hdue
  rw [ht] at hs
  rw [hs]
  refine ⟨WF_transition hwf ht, mem_replaceRes_self hmem rfl, ?_⟩
  obtain ⟨it, hit, hns⟩ := hnm
  refine ⟨updateItemRow
    (replaceRes st.reservations (applyTransition R RStatus.Active Actor.system none))
    R.itemId it, ?_, ?_⟩
  · rw [findItem_updated, hit]
    rfl
  · have hitid : it.id = R.itemId := findItem_id hit
    unfold updateItemRow
    rw [if_pos (beq_iff_eq.mpr hitid)]
    rw [if_neg (by simp [hns])]
    show derivedItemStatus _ it.id = IStatus.InUse
    rw [hitid]
    exact derived_inuse_of_active (mem_replaceRes_self hmem rfl) rfl rfl

theorem complete_at (st : EngineState) (now : Nat) (R : Reservation)
    (hwf : WF st) (hmem : R ∈ st.reservations)
    (hst : R.status = RStatus.Active) (hdue : R.returnDate ≤ now) :
    WF (sweepStep now st R.id) ∧
    (applyTransition R RStatus.Completed Actor.system none) ∈
      (sweepStep now st R.id).reservations ∧
    (OthersFree st R.itemId R.id → ItemNotMaint st R.itemId →
      ItemIs (sweepStep now st R.id) R.itemId IStatus.Available) ∧
    (OthersFree st R.itemId R.id → OthersFree (sweepStep now st R.id) R.itemId R.id) := by
  have hf := findRes_eq_of_mem hwf.1 hmem
  have hs := sweepStep_some now st R.id R hf
  have hcond1 : ¬ (R.status == RStatus.Approved && decide (R.startDate ≤ now)) = true := by
    simp [hst]
  have hcond2 : (R.status == RStatus.Active && decide (R.returnDate ≤ now)) = true := by
    simp [hst, hdue]
  rw [if_neg hcond1, if_pos hcond2] at hs
  have ht := transition_complete_ok st now R hwf.1 hmem hst hdue
  rw [ht] at hs
  rw [hs]
  refine ⟨WF_transition hwf ht, mem_replaceRes_self hmem rfl, ?_, ?_⟩
  · intro hfree hnm
    obtain ⟨it, hit, hns⟩ := hnm
    refine ⟨updateItemRow
      (replaceRes st.reservations (applyTransition R RStatus.Completed Actor.system none))
      R.itemId it, ?_, ?_⟩
    · rw [findItem_updated, hit]
      rfl
    · have hitid : it.id = R.itemId := findItem_id hit
      unfold updateItemRow
      rw [if_pos (beq_iff_eq.mpr hitid)]
      rw [if_neg (by simp [hns])]
      show derivedItemStatus _ it.id = IStatus.Available
      rw [hitid]
      apply derived_available_of_free
      intro y hy hyI
      obtain ⟨x, hx, hxy⟩ := of_mem_replaceRes hy
      by_cases hc : (x.id == (applyTransition R RStatus.Completed Actor.system none).id) = true
      · rw [if_pos hc] at hxy
        rw [hxy]
        rfl
      · rw [if_neg hc] at hxy
        rw [hxy] at hyI ⊢
        apply hfree x hx hyI
        intro hcon
        exact hc (beq_iff_eq.mpr hcon)
  · intro hfree y hy hyI hyid
    obtain ⟨x, hx, hxy⟩ := of_mem_replaceRes hy
    by_cases hc : (x.id == (applyTransition R RStatus.Completed Actor.system none).id) = true
    · rw [if_pos hc] at hxy
      exfalso
      apply hyid
      rw [hxy]
      rfl
    · rw [if_neg hc] at hxy
      rw [hxy] at hyI hyid ⊢
      exact hfree x hx hyI hyid

theorem sweepTick_split (st : EngineState) (now : Nat) {R : Reservation}
    (hids : DistinctIds st) (hmem : R ∈ st.reservations) :
    ∃ (l1 l2 : List Nat), (∀ p ∈ l1, p ≠ R.id) ∧ (∀ p ∈ l2, p ≠ R.id) ∧
      sweepTick st now =
        l2.foldl (sweepStep now) (sweepStep now (l1.foldl (sweepStep now) st) R.id) := by
  have hmemid : R.id ∈ st.reservations.map (fun r => r.id) :=
    List.mem_map_of_mem (fun r => r.id) hmem
  obtain ⟨l1, l2, hsplit⟩ := List.append_of_mem hmemid
  have hnodup : (l1 ++ R.id :: l2).Nodup := by
    rw [← hsplit]
    exact hids
  have hnotin : R.id ∉ l1 ++ l2 := (List.nodup_cons.mp (List.nodup_middle.mp hnodup)).1
  refine ⟨l1, l2, ?_, ?_, ?_⟩
  · intro p hp hcon
    exact hnotin (List.mem_append.mpr (Or.inl (hcon ▸ hp)))
  · intro p hp hcon
    exact hnotin (List.mem_append.mpr (Or.inr (hcon ▸ hp)))
  · unfold sweepTick
    rw [hsplit, List.foldl_append, List.foldl_cons]

theorem sweep_activates (st : EngineState) (now : Nat) (R : Reservation)
    (hwf : WF st) (hmem : R ∈ st.reservations)
    (hst : R.status = RStatus.Approved) (hdue : R.startDate ≤ now)
    (hnm : ItemNotMaint st R.itemId) :
    (∃ r2 ∈ (sweepTick st now).reservations, r2.id = R.id ∧ r2.status = RStatus.Active) ∧
    ItemIs (sweepTick st now) R.itemId IStatus.InUse := by
  obtain ⟨l1, l2, hl1, hl2, heq⟩ := sweepTick_split st now hwf.1 hmem
  have h1 := foldl_preserve now R.id (sweepStep_pre now R.itemId R) l1 st hl1 ⟨hwf, hmem, hnm⟩
  obtain ⟨hwf1, hmem1, hnm1⟩ := h1
  have hact := activate_at (l1.foldl (sweepStep now) st) now R hwf1 hmem1 hst hdue hnm1
  have h3 := foldl_preserve now R.id
    (sweepStep_post_inuse now R.itemId (applyTransition R RStatus.Active Actor.system none)
      rfl rfl) l2 _ hl2 ⟨hact.1, hact.2.1, hact.2.2⟩
  rw [heq]
  exact ⟨⟨applyTransition R RStatus.Active Actor.system none, h3.2.1, rfl, rfl⟩, h3.2.2⟩

theorem sweep_completes (st : EngineState) (now : Nat) (R : Reservation)
    (hwf : WF st) (hmem : R ∈ st.reservations)
    (hst : R.status = RStatus.Active) (hdue : R.returnDate ≤ now)
    (hnm : ItemNotMaint st R.itemId) :
    (∃ r2 ∈ (sweepTick st now).reservations, r2.id = R.id ∧ r2.status = RStatus.Completed) ∧
    (OthersFree st R.itemId R.id → ItemIs (sweepTick st now) R.itemId IStatus.Available) := by
  obtain ⟨l1, l2, hl1, hl2, heq⟩ := sweepTick_split st now hwf.1 hmem
  constructor
  · have h1 := foldl_preserve now R.id (sweepStep_pre now R.itemId R) l1 st hl1 ⟨hwf, hmem, hnm⟩
    obtain ⟨hwf1, hmem1, hnm1⟩ := h1
    have hc := complete_at (l1.foldl (sweepStep now) st) now R hwf1 hmem1 hst hdue
    have h3 := foldl_preserve now R.id
      (sweepStep_keep now (applyTransition R RStatus.Completed Actor.system none))
      l2 _ hl2 ⟨hc.1, hc.2.1⟩
    rw [heq]
    exact ⟨applyTransition R RStatus.Completed Actor.system none, h3.2, rfl, rfl⟩
  · intro hfree
    have h1 := foldl_preserve now R.id
      (fun s p hp h => sweepStep_pre_free now R.itemId R.id R s p hp rfl h)
      l1 st hl1 ⟨hwf, hmem, hnm, hfree⟩
    obtain ⟨hwf1, hmem1, hnm1, hfree1⟩ := h1
    have hc := complete_at (l1.foldl (sweepStep now) st) now R hwf1 hmem1 hst hdue
    have havail := hc.2.2.1 hfree1 hnm1
    have hfree2 := hc.2.2.2 hfree1
    have h3 := foldl_preserve now R.id
      (fun s p hp h => sweepStep_post_avail now R.itemId R.id
        (applyTransition R RStatus.Completed Actor.system none) s p hp rfl h)
      l2 _ hl2 ⟨hc.1, hc.2.1, hfree2, havail⟩
    rw [heq]
    exact h3.2.2.2

/-! Helpers for the error paths and the stable sort. -/

theorem terminal_no_edge {s : RStatus}
    (h : s = RStatus.Rejected ∨ s = RStatus.Completed ∨ s = RStatus.Cancelled)
    (tgt : RStatus) (r : Reservation) (now : Nat) :
    edgeAllowed s tgt r now = false := by
  rcases h with h | h | h <;> subst h <;> cases tgt <;> rfl

theorem prepare_invalid (st : EngineState) (now resId : Nat) (tgt : RStatus) (a : Actor)
    (version : Nat) (reason : Option String) (r : Reservation)
    (hfind : findRes st resId = some r)
    (hedge : edgeAllowed r.status tgt r now = false) :
    prepare st now resId tgt a version reason = .error .InvalidTransition := by
  unfold prepare
  rw [hfind]
  simp [hedge]

theorem prepare_conflict (st : EngineState) (now resId : Nat) (tgt : RStatus) (a : Actor)
    (version : Nat) (reason : Option String) (r : Reservation)
    (hfind : findRes st resId = some r)
    (hedge : edgeAllowed r.status tgt r now = true)
    (hauth : actorAuthorized a r.status tgt r = true)
    (hmaint : tgt = RStatus.Approved → itemUnderMaintenance st r.itemId = false)
    (hocc : occupies tgt = true)
    (hne : conflictIds st.reservations r.itemId r.startDate r.returnDate r.id ≠ []) :
    prepare st now resId tgt a version reason =
      .error (.BookingConflict
        (conflictIds st.reservations r.itemId r.startDate r.returnDate r.id)) := by
  unfold prepare
  rw [hfind]
  have hm : (tgt == RStatus.Approved && itemUnderMaintenance st r.itemId) = false := by
    by_cases ht : tgt = RStatus.Approved
    · simp [ht, hmaint ht]
    · simp [ht]
  have hc : (occupies tgt &&
      !(conflictIds st.reservations r.itemId r.startDate r.returnDate r.id).isEmpty) = true := by
    rw [hocc]
    cases hl : conflictIds st.reservations r.itemId r.startDate r.returnDate r.id with
    | nil => exact absurd hl hne
    | cons x xs => rfl
  simp [hedge, hauth, hm, hc]

theorem applyOp_transit_error {st : EngineState} {now resId : Nat} {tgt : RStatus}
    {a : Actor} {version : Nat} {reason : Option String} {e : TError}
    (h : transition st now resId tgt a version reason = .error e) :
    applyOp st (Op.transit now resId tgt a version reason) = st := by
  show (match transition st now resId tgt a version reason with
    | .ok st2 => st2
    | .error _ => st) = st
  rw [h]

theorem filter_eq_singleton {p : Reservation → Bool} {x : Reservation} :
    ∀ {rs : List Reservation}, rs.Nodup → x ∈ rs → p x = true →
    (∀ y ∈ rs, p y = true → y = x) → rs.filter p = [x] := by
  intro rs
  induction rs with
  | nil =>
    intro _ hx
    exact absurd hx (List.not_mem_nil x)
  | cons a t ih =>
    intro hnd hx hpx huniq
    obtain ⟨hna, hnt⟩ := List.nodup_cons.mp hnd
    rw [List.filter_cons]
    rcases List.mem_cons.mp hx with hxa | hxt
    · rw [← hxa] at hna ⊢
      rw [if_pos hpx]
      have hfil : t.filter p = [] := by
        apply filter_eq_nil_of_all
        intro y hy
        cases hpy : p y with
        | false => rfl
        | true =>
          exfalso
          have hyx := huniq y (List.mem_cons_of_mem _ hy) hpy
          rw [hyx] at hy
          exact hna hy
      rw [hfil]
    · have hpa : p a = false := by
        cases hpa : p a with
        | false => rfl
        | true =>
          exfalso
          have hax := huniq a (List.mem_cons_self a t) hpa
          rw [hax] at hna
          exact hna hxt
      rw [if_neg (by simp [hpa])]
      exact ih hnt hxt hpx (fun y hy hpy => huniq y (List.mem_cons_of_mem _ hy) hpy)

theorem perm_insertKeyDesc {α : Type} (key : α → Nat) (a : α) :
    ∀ l : List α, (insertKeyDesc key a l).Perm (a :: l) := by
  intro l
  induction l with
  | nil => exact List.Perm.refl _
  | cons b t ih =>
    unfold insertKeyDesc
    by_cases h : key b ≤ key a
    · rw [if_pos h]
    · rw [if_neg h]
      exact (List.Perm.cons b ih).trans (List.Perm.swap a b t)

theorem perm_sortKeyDesc {α : Type} (key : α → Nat) :
    ∀ l : List α, (sortKeyDesc key l).Perm l := by
  intro l
  induction l with
  | nil => exact List.Perm.refl _
  | cons a t ih =>
    show (insertKeyDesc key a (sortKeyDesc key t)).Perm (a :: t)
    exact (perm_insertKeyDesc key a _).trans (List.Perm.cons a ih)

theorem pairwise_insertKeyDesc {α : Type} (key : α → Nat) (a : α) :
    ∀ {l : List α}, l.Pairwise (fun x y => key y ≤ key x) →
      (insertKeyDesc key a l).Pairwise (fun x y => key y ≤ key x) := by
  intro l
  induction l with
  | nil =>
    intro _
    exact List.pairwise_singleton _ _
  | cons b t ih =>
    intro hp
    obtain ⟨hb, ht⟩ := List.pairwise_cons.mp hp
    unfold insertKeyDesc
    by_cases h : key b ≤ key a
    · rw [if_pos h]
      refine List.Pairwise.cons ?_ hp
      intro y hy
      rcases List.mem_cons.mp hy with hyb | hyt
      · rw [hyb]
        exact h
      · exact le_trans (hb y hyt) h
    · rw [if_neg h]
      refine List.Pairwise.cons ?_ (ih ht)
      intro y hy
      have hy2 := (perm_insertKeyDesc key a t).mem_iff.mp hy
      rcases List.mem_cons.mp hy2 with hya | hyt
      · rw [hya]
        exact le_of_lt (not_le.mp h)
      · exact hb y hyt

theorem pairwise_sortKeyDesc {α : Type} (key : α → Nat) :
    ∀ l : List α, (sortKeyDesc key l).Pairwise (fun x y => key y ≤ key x) := by
  intro l
  induction l with
  | nil => exact List.Pairwise.nil
  | cons a t ih =>
    show (insertKeyDesc key a (sortKeyDesc key t)).Pairwise _
    exact pairwise_insertKeyDesc key a ih

theorem filter_insertKeyDesc {α : Type} (key : α → Nat) (a : α) (c : Nat) :
    ∀ l : List α, (insertKeyDesc key a l).filter (fun x => key x == c) =
      ((a :: l).filter (fun x => key x == c)) := by
  intro l
  induction l with
  | nil => rfl
  | cons b t ih =>
    unfold insertKeyDesc
    by_cases h : key b ≤ key a
    · rw [if_pos h]
    · rw [if_neg h]
      by_cases hb : (key b == c) = true
      · by_cases ha : (key a == c) = true
        · exfalso
          apply h
          rw [beq_iff_eq.mp hb, beq_iff_eq.mp ha]
        · simp [List.filter_cons, ih, hb, ha]
      · simp [List.filter_cons, ih, hb]

theorem filter_sortKeyDesc {α : Type} (key : α → Nat) (c : Nat) :
    ∀ l : List α, (sortKeyDesc key l).filter (fun x => key x == c) =
      l.filter (fun x => key x == c) := by
  intro l
  induction l with
  | nil => rfl
  | cons a t ih =>
    show (insertKeyDesc key a (sortKeyDesc key t)).filter _ = _
    rw [filter_insertKeyDesc key a c (sortKeyDesc key t)]
    rw [List.filter_cons, List.filter_cons, ih]

theorem find?_replaceRes (rs : List Reservation) (upd : Reservation) (q : Nat) :
    (replaceRes rs upd).find? (fun x => x.id == q) =
      Option.map (fun x => if x.id == upd.id then upd else x)
        (rs.find? (fun x => x.id == q)) := by
  unfold replaceRes
  induction rs with
  | nil => rfl
  | cons a t ih =>
    rw [List.map_cons]
    simp only [List.find?_cons]
    have hg : ((if a.id == upd.id then upd else a).id == q) = (a.id == q) := by
      rw [replaceRes_id_preserve]
    cases h : (a.id == q) with
    | true =>
      simp only [hg, h]
      rfl
    | false =>
      simp only [hg, h]
      exact ih

theorem findRes_commit (st : EngineState) (upd : Reservation) (items2 : List Item)
    (q : Nat) :
    findRes { reservations := replaceRes st.reservations upd, items := items2 } q =
      Option.map (fun x => if x.id == upd.id then upd else x) (findRes st q) :=
  find?_replaceRes st.reservations upd q

theorem commit_then_stale (st : EngineState) (R : Reservation) (p q : PreparedWrite)
    (hids : DistinctIds st) (hmem : R ∈ st.reservations)
    (hpu : p.updated.id = R.id) (hpe : p.expectedVersion = R.version)
    (hqu : q.updated.id = R.id) (hqe : q.expectedVersion = R.version)
    (hpver : p.updated.version = R.version + 1)
    (hpst : p.updated.status = RStatus.Approved) :
    ∃ st1, commitWrite st p = .ok st1 ∧
      (∃ r1 ∈ st1.reservations, r1.id = R.id ∧ r1.status = RStatus.Approved ∧
        r1.version = R.version + 1) ∧
      commitWrite st1 q = .error .StaleWrite := by
  have hfind : findRes st p.updated.id = some R := by
    rw [hpu]
    exact findRes_eq_of_mem hids hmem
  have hok := commitWrite_ok st p R hfind hpe.symm
  refine ⟨_, hok, ?_, ?_⟩
  · exact ⟨p.updated, mem_replaceRes_self hmem hpu.symm, hpu, hpst, hpver⟩
  · refine commitWrite_stale _ q p.updated ?_ ?_
    · rw [hqu, findRes_commit]
      rw [show findRes st R.id = some R from findRes_eq_of_mem hids hmem]
      simp [hpu]
    · rw [hpver, hqe]
      omega

/-! The claims. -/

/-- C1: No double-booking (Invariant A): starting from any well-formed state,
after any sequence of engine operations (accepted transitions; rejected
requests have no effect) and hence at every point in time, for each item the
set of reservations in a non-terminal status that occupies the item (Approved
or Active, the occupancy form of section 8 and the glossary; Pending requests
are deliberately allowed to overlap by sections 4.2 and 6) has pairwise
non-overlapping half-open intervals. -/
theorem c1_no_double_booking (st0 : EngineState) (ops : List Op) (h : WF st0) :
    InvariantA (applyOps st0 ops) :=
  (WF_applyOps st0 ops h).2

/-- C2: Conflict surfacing with atomicity: approving a Pending reservation R
while another reservation of the same item with an overlapping interval
occupies it fails with BookingConflict carrying exactly the set of
conflicting reservation ids (here the singleton of the other reservation),
and the state, in particular the status and version of R, is unchanged. -/
theorem c2_conflict_surfacing (st : EngineState) (now : Nat) (R Rp : Reservation)
    (a : Actor) (version : Nat) (reason : Option String)
    (hids : DistinctIds st)
    (hR : R ∈ st.reservations) (hRp : Rp ∈ st.reservations)
    (hpend : R.status = RStatus.Pending)
    (hitem : Rp.itemId = R.itemId)
    (hocc : occupies Rp.status = true)
    (hover : overlaps Rp.startDate Rp.returnDate R.startDate R.returnDate = true)
    (hadmin : isAdmin a = true)
    (hnm : itemUnderMaintenance st R.itemId = false)
    (honly : ∀ y ∈ st.reservations, y.itemId = R.itemId → y.id ≠ R.id →
      occupies y.status = true →
      overlaps y.startDate y.returnDate R.startDate R.returnDate = true → y = Rp) :
    transition st now R.id RStatus.Approved a version reason =
      .error (.BookingConflict [Rp.id]) ∧
    applyOp st (Op.transit now R.id RStatus.Approved a version reason) = st := by
  have hne : Rp.id ≠ R.id := by
    intro hcon
    have heq := id_inj_of_nodup hids hRp hR hcon
    rw [heq, hpend] at hocc
    simp [occupies] at hocc
  have hsingle : conflictIds st.reservations R.itemId R.startDate R.returnDate R.id
      = [Rp.id] := by
    unfold conflictIds
    rw [filter_eq_singleton (List.Nodup.of_map _ hids) hRp
      (by simp [hitem, hne, hocc, hover])
      ?uniq]
    · rfl
    case uniq =>
      intro y hy hpy
      simp only [Bool.and_eq_true, beq_iff_eq, bne_iff_ne, ne_eq] at hpy
      exact honly y hy hpy.1.1.1 hpy.1.1.2 hpy.1.2 hpy.2
  have hprep := prepare_conflict st now R.id RStatus.Approved a version reason R
    (findRes_eq_of_mem hids hR)
    (by rw [hpend]; rfl)
    (by rw [hpend]; simp [actorAuthorized, hadmin])
    (fun _ => hnm)
    rfl
    (by rw [hsingle]; simp)
  rw [hsingle] at hprep
  exact ⟨transition_error_of_prepare hprep,
    applyOp_transit_error (transition_error_of_prepare hprep)⟩

/-- C3: Terminal states are absorbing: a reservation in Rejected, Completed
or Cancelled rejects every further Transition call, for every target status,
actor, presented version and reason, with InvalidTransition, and the state is
left unchanged. -/
theorem c3_terminal_absorbing (st : EngineState) (now : Nat) (tgt : RStatus) (a : Actor)
    (version : Nat) (reason : Option String) (R : Reservation)
    (hids : DistinctIds st) (hmem : R ∈ st.reservations)
    (hterm : R.status = RStatus.Rejected ∨ R.status = RStatus.Completed ∨
      R.status = RStatus.Cancelled) :
    transition st now R.id tgt a version reason = .error .InvalidTransition ∧
    applyOp st (Op.transit now R.id tgt a version reason) = st := by
  have hprep := prepare_invalid st now R.id tgt a version reason R
    (findRes_eq_of_mem hids hmem) (terminal_no_edge hterm tgt R now)
  exact ⟨transition_error_of_prepare hprep,
    applyOp_transit_error (transition_error_of_prepare hprep)⟩

/-- C4: Maintenance cascade: setting Maintenance on item I transitions every
Pending reservation of I to Rejected with reason "item under maintenance",
transitions every Approved reservation of I whose startDate lies after the
maintenance point to Cancelled, and leaves every Active reservation of I
unchanged. -/
theorem c4_maintenance_cascade (st : EngineState) (I now : Nat) (r : Reservation)
    (hmem : r ∈ st.reservations) (hitem : r.itemId = I) :
    (maintCascade now I r) ∈ (setMaintenance st I true now).reservations ∧
    (r.status = RStatus.Pending →
      (maintCascade now I r).status = RStatus.Rejected ∧
      (maintCascade now I r).rejectionReason = some "item under maintenance") ∧
    (r.status = RStatus.Approved → now < r.startDate →
      (maintCascade now I r).status = RStatus.Cancelled) ∧
    (r.status = RStatus.Active → maintCascade now I r = r) := by
  refine ⟨?_, ?_, ?_, ?_⟩
  · exact List.mem_map_of_mem (maintCascade now I) hmem
  · intro hp
    unfold maintCascade
    rw [if_pos (beq_iff_eq.mpr hitem), hp]
    exact ⟨rfl, rfl⟩
  · intro hap hlt
    unfold maintCascade
    rw [if_pos (beq_iff_eq.mpr hitem), hap]
    rw [if_pos hlt]
  · intro hac
    unfold maintCascade
    rw [if_pos (beq_iff_eq.mpr hitem), hac]

/-- C5 (amended): Sweep correctness: in a well-formed state whose item is not
under Maintenance, one Scheduler Sweep tick transitions every Approved
reservation with startDate at or before now to Active and sets the item
status to InUse; and it transitions every Active reservation with returnDate
at or before now to Completed, setting the item status to Available provided
additionally that no other Approved or Active reservation of the item
remains (otherwise the derived status stays InUse or Reserved, see the
counterexample). -/
theorem c5_sweep_correctness (st : EngineState) (now : Nat) (R : Reservation)
    (hwf : WF st) (hmem : R ∈ st.reservations)
    (hnm : ItemNotMaint st R.itemId) :
    (R.status = RStatus.Approved → R.startDate ≤ now →
      (∃ r2 ∈ (sweepTick st now).reservations, r2.id = R.id ∧
        r2.status = RStatus.Active) ∧
      ItemIs (sweepTick st now) R.itemId IStatus.InUse) ∧
    (R.status = RStatus.Active → R.returnDate ≤ now →
      (∃ r2 ∈ (sweepTick st now).reservations, r2.id = R.id ∧
        r2.status = RStatus.Completed) ∧
      (OthersFree st R.itemId R.id →
        ItemIs (sweepTick st now) R.itemId IStatus.Available)) :=
  ⟨fun h1 h2 => sweep_activates st now R hwf hmem h1 h2 hnm,
   fun h1 h2 => sweep_completes st now R hwf hmem h1 h2 hnm⟩

/-- C5 counterexample: in exSt5c the reservation with id 1 is Active with
returnDate 4 at or before now = 5 and its item 1 is not under Maintenance,
yet after one sweep tick the item status is Reserved, not Available as the
claim states, because the future-dated Approved reservation with id 2 still
occupies the item; the Active reservation itself is duly Completed. -/
theorem c5_sweep_counterexample :
    (mkRes 1 1 7 0 4 .Active 0 0) ∈ exSt5c.reservations ∧
    (mkRes 1 1 7 0 4 .Active 0 0).status = RStatus.Active ∧
    (mkRes 1 1 7 0 4 .Active 0 0).returnDate ≤ 5 ∧
    itemUnderMaintenance exSt5c 1 = false ∧
    findRes (sweepTick exSt5c 5) 1 = some (mkRes 1 1 7 0 4 .Completed 1 0) ∧
    findItem (sweepTick exSt5c 5) 1 = some { id := 1, status := IStatus.Reserved } ∧
    IStatus.Reserved ≠ IStatus.Available := by
  decide

/-- C6: Optimistic-concurrency race: two concurrent Transition calls
approving the same Pending reservation with the same starting version both
validate against the same snapshot, and whichever commit lands second fails
with StaleWrite and has no effect: in either commit order exactly one call
succeeds, bumping the version, and the other returns StaleWrite. -/
theorem c6_stale_write_race (st : EngineState) (now : Nat) (R : Reservation)
    (a1 a2 : Nat) (version : Nat)
    (hids : DistinctIds st) (hmem : R ∈ st.reservations)
    (hpend : R.status = RStatus.Pending) (hv : version = R.version)
    (hnm : itemUnderMaintenance st R.itemId = false)
    (hnc : conflictIds st.reservations R.itemId R.startDate R.returnDate R.id = []) :
    ∃ p1 p2,
      prepare st now R.id RStatus.Approved (Actor.admin a1) version none = .ok p1 ∧
      prepare st now R.id RStatus.Approved (Actor.admin a2) version none = .ok p2 ∧
      (∃ st1, commitWrite st p1 = .ok st1 ∧
        (∃ r1 ∈ st1.reservations, r1.id = R.id ∧ r1.status = RStatus.Approved ∧
          r1.version = R.version + 1) ∧
        commitWrite st1 p2 = .error .StaleWrite) ∧
      (∃ st2, commitWrite st p2 = .ok st2 ∧
        (∃ r1 ∈ st2.reservations, r1.id = R.id ∧ r1.status = RStatus.Approved ∧
          r1.version = R.version + 1) ∧
        commitWrite st2 p1 = .error .StaleWrite) := by
  have hedge : edgeAllowed R.status RStatus.Approved R now = true := by
    rw [hpend]
    rfl
  have hprep1 := prepare_ok_of st now R.id RStatus.Approved (Actor.admin a1) version none R
    (findRes_eq_of_mem hids hmem) hedge
    (by rw [hpend]; rfl) (fun _ => hnm) (fun _ => hnc) hv
  have hprep2 := prepare_ok_of st now R.id RStatus.Approved (Actor.admin a2) version none R
    (findRes_eq_of_mem hids hmem) hedge
    (by rw [hpend]; rfl) (fun _ => hnm) (fun _ => hnc) hv
  refine ⟨_, _, hprep1, hprep2, ?_, ?_⟩
  · exact commit_then_stale st R _ _ hids hmem rfl hv rfl hv rfl rfl
  · exact commit_then_stale st R _ _ hids hmem rfl hv rfl hv rfl rfl

/-- C7: Boundary adjacency: intervals that merely touch (the returnDate of
the Approved reservation equals the startDate of the Pending one) do not
count as overlapping, so approving the Pending reservation succeeds without
BookingConflict, leaving both reservations Approved simultaneously. -/
theorem c7_adjacent_ok (st : EngineState) (now : Nat) (r1 r2 : Reservation) (a : Actor)
    (version : Nat) (reason : Option String)
    (hids : DistinctIds st) (h1 : r1 ∈ st.reservations) (h2 : r2 ∈ st.reservations)
    (hitem : r1.itemId = r2.itemId) (hadj : r1.returnDate = r2.startDate)
    (h1a : r1.status = RStatus.Approved) (h2p : r2.status = RStatus.Pending)
    (hadmin : isAdmin a = true)
    (hnm : itemUnderMaintenance st r2.itemId = false)
    (hv : version = r2.version)
    (honly : ∀ y ∈ st.reservations, y.itemId = r2.itemId → occupies y.status = true →
      y.id = r1.id) :
    overlaps r1.startDate r1.returnDate r2.startDate r2.returnDate = false ∧
    ∃ st2, transition st now r2.id RStatus.Approved a version reason = .ok st2 ∧
      (applyTransition r2 RStatus.Approved a reason) ∈ st2.reservations ∧
      (applyTransition r2 RStatus.Approved a reason).status = RStatus.Approved ∧
      r1 ∈ st2.reservations ∧ r1.status = RStatus.Approved := by
  have hover : overlaps r1.startDate r1.returnDate r2.startDate r2.returnDate = false := by
    unfold overlaps
    rw [hadj]
    simp
  have hne12 : r1.id ≠ r2.id := by
    intro hcon
    have heq := id_inj_of_nodup hids h1 h2 hcon
    rw [← heq, h1a] at h2p
    exact RStatus.noConfusion h2p
  have hconf : conflictIds st.reservations r2.itemId r2.startDate r2.returnDate r2.id
      = [] := by
    have hfil : st.reservations.filter (fun y =>
        y.itemId == r2.itemId && y.id != r2.id && occupies y.status &&
          overlaps y.startDate y.returnDate r2.startDate r2.returnDate) = [] := by
      apply filter_eq_nil_of_all
      intro y hy
      by_cases b1 : (y.itemId == r2.itemId) = true
      · by_cases b3 : occupies y.status = true
        · have hid := honly y hy (beq_iff_eq.mp b1) b3
          have hyr1 : y = r1 := id_inj_of_nodup hids hy h1 hid
          rw [hyr1]
          simp [hover]
        · simp [b3]
      · simp [b1]
    unfold conflictIds
    rw [hfil]
    rfl
  have ht := transition_ok_of st now r2.id RStatus.Approved a version reason r2
    (findRes_eq_of_mem hids h2)
    (by rw [h2p]; rfl)
    (by rw [h2p]; simp [actorAuthorized, hadmin])
    (fun _ => hnm)
    (fun _ => hconf)
    hv
  refine ⟨hover, _, ht, ?_, rfl, ?_, h1a⟩
  · exact mem_replaceRes_self h2 rfl
  · exact mem_replaceRes_of_ne h1 hne12

/-- C8: Listing order: ListReservations is a pure (read-only) function of
the state; for every filter it returns exactly the matching reservations (a
permutation of the filtered table), sorted by createdAt descending, and the
sort is stable: reservations sharing a createdAt keep their original
relative order. -/
theorem c8_listing_order (st : EngineState) (f : ResFilter) :
    (listReservations st f).Perm (st.reservations.filter (matchesResFilter f)) ∧
    (listReservations st f).Pairwise (fun x y => y.createdAt ≤ x.createdAt) ∧
    ∀ c : Nat, (listReservations st f).filter (fun r => r.createdAt == c) =
      (st.reservations.filter (matchesResFilter f)).filter (fun r => r.createdAt == c) :=
  ⟨perm_sortKeyDesc _ _, pairwise_sortKeyDesc _ _, fun c => filter_sortKeyDesc _ c _⟩

/-- C9: Per-user visibility filter: every report in the Reports page
filteredReports result satisfies: the viewer role is admin or the report was
filed by the viewer; a non-admin user never sees a report they did not
file. -/
theorem c9_report_visibility (reports : List DamageReport) (items : List UiItem)
    (searchQuery filterStatus userRole userId : String) (r : DamageReport)
    (h : r ∈ filteredReports reports items searchQuery filterStatus userRole userId) :
    userRole = "admin" ∨ r.reportedBy = userId := by
  have hperm := perm_sortKeyDesc (fun r => r.createdAt)
    (reports.filter (reportMatches items searchQuery filterStatus userRole userId))
  have hmem := hperm.mem_iff.mp h
  have hp := (List.mem_filter.mp hmem).2
  simp only [reportMatches, Bool.and_eq_true, Bool.or_eq_true, beq_iff_eq] at hp
  exact hp.2

/-- C10: Submission guard: handleSubmitReport issues a create mutation if and
only if the form itemId is non-empty and the description is non-blank after
trimming; when it does, the payload carries exactly the form fields and the
submitting user; the handler itself leaves the form state untouched in either
case. -/
theorem c10_submit_guard (formData : ReportForm) (userId : String) :
    ((∃ p, handleSubmitReport formData userId = some p) ↔
      (formData.itemId ≠ "" ∧ formData.description.trim ≠ "")) ∧
    (∀ p, handleSubmitReport formData userId = some p →
      p = { itemId := formData.itemId, reportedBy := userId,
            reportType := formData.reportType, severity := formData.severity,
            description := formData.description }) := by
  unfold handleSubmitReport
  by_cases h1 : formData.itemId = ""
  · have hcond : (formData.itemId == "" || formData.description.trim == "") = true := by
      simp [h1]
    constructor
    · constructor
      · rintro ⟨p, hp⟩
        rw [if_pos hcond] at hp
        exact absurd hp (by simp)
      · rintro ⟨ha, _⟩
        exact absurd h1 ha
    · intro p hp
      rw [if_pos hcond] at hp
      exact absurd hp (by simp)
  · by_cases h2 : formData.description.trim = ""
    · have hcond : (formData.itemId == "" || formData.description.trim == "") = true := by
        simp [h2]
      constructor
      · constructor
        · rintro ⟨p, hp⟩
          rw [if_pos hcond] at hp
          exact absurd hp (by simp)
        · rintro ⟨_, hb⟩
          exact absurd h2 hb
      · intro p hp
        rw [if_pos hcond] at hp
        exact absurd hp (by simp)
    · have hcond : ¬ (formData.itemId == "" || formData.description.trim == "") = true := by
        simp [h1, h2]
      constructor
      · constructor
        · intro _
          exact ⟨h1, h2⟩
        · intro _
          exact ⟨_, by rw [if_neg hcond]⟩
      · intro p hp
        rw [if_neg hcond] at hp
        exact (Option.some.inj hp).symm

/-! Witnesses: each applies its claim theorem at a concrete input. -/

theorem c1_no_double_booking_witness :
    WF exSt1 ∧
    InvariantA (applyOps exSt1
      [Op.create 0 1 1 7 0 5, Op.transit 1 1 RStatus.Approved (Actor.admin 9) 0 none]) :=
  ⟨by decide, c1_no_double_booking exSt1
    [Op.create 0 1 1 7 0 5, Op.transit 1 1 RStatus.Approved (Actor.admin 9) 0 none]
    (by decide)⟩

theorem c2_conflict_surfacing_witness :
    DistinctIds exSt2 ∧
    (mkRes 1 1 7 0 5 .Pending 0 0) ∈ exSt2.reservations ∧
    (mkRes 2 1 8 3 9 .Approved 1 0) ∈ exSt2.reservations ∧
    overlaps 3 9 0 5 = true ∧
    transition exSt2 2 1 RStatus.Approved (Actor.admin 9) 0 none =
      .error (.BookingConflict [2]) ∧
    applyOp exSt2 (Op.transit 2 1 RStatus.Approved (Actor.admin 9) 0 none) = exSt2 := by
  have h := c2_conflict_surfacing exSt2 2 (mkRes 1 1 7 0 5 .Pending 0 0)
    (mkRes 2 1 8 3 9 .Approved 1 0) (Actor.admin 9) 0 none
    (by decide) (by decide) (by decide) (by decide) (by decide) (by decide)
    (by decide) (by decide) (by decide) (by decide)
  exact ⟨by decide, by decide, by decide, by decide, h.1, h.2⟩

theorem c3_terminal_absorbing_witness :
    DistinctIds exSt3 ∧
    (mkRes 1 1 7 0 5 .Completed 2 0) ∈ exSt3.reservations ∧
    transition exSt3 9 1 RStatus.Approved (Actor.admin 4) 2 none =
      .error .InvalidTransition ∧
    applyOp exSt3 (Op.transit 9 1 RStatus.Approved (Actor.admin 4) 2 none) = exSt3 := by
  have h := c3_terminal_absorbing exSt3 9 RStatus.Approved (Actor.admin 4) 2 none
    (mkRes 1 1 7 0 5 .Completed 2 0) (by decide) (by decide) (by decide)
  exact ⟨by decide, by decide, h.1, h.2⟩

theorem c4_maintenance_cascade_witness :
    (mkRes 1 1 7 10 20 .Pending 0 0) ∈ exSt4.reservations ∧
    (mkRes 1 1 7 10 20 .Pending 0 0).itemId = 1 ∧
    ((maintCascade 5 1 (mkRes 1 1 7 10 20 .Pending 0 0)) ∈
      (setMaintenance exSt4 1 true 5).reservations ∧
    ((mkRes 1 1 7 10 20 .Pending 0 0).status = RStatus.Pending →
      (maintCascade 5 1 (mkRes 1 1 7 10 20 .Pending 0 0)).status = RStatus.Rejected ∧
      (maintCascade 5 1 (mkRes 1 1 7 10 20 .Pending 0 0)).rejectionReason =
        some "item under maintenance") ∧
    ((mkRes 1 1 7 10 20 .Pending 0 0).status = RStatus.Approved →
      5 < (mkRes 1 1 7 10 20 .Pending 0 0).startDate →
      (maintCascade 5 1 (mkRes 1 1 7 10 20 .Pending 0 0)).status = RStatus.Cancelled) ∧
    ((mkRes 1 1 7 10 20 .Pending 0 0).status = RStatus.Active →
      maintCascade 5 1 (mkRes 1 1 7 10 20 .Pending 0 0) = mkRes 1 1 7 10 20 .Pending 0 0)) := by
  have h := c4_maintenance_cascade exSt4 1 5 (mkRes 1 1 7 10 20 .Pending 0 0)
    (by decide) (by decide)
  exact ⟨by decide, by decide, h⟩

theorem c5_sweep_correctness_witness :
    WF exSt5w ∧
    (mkRes 1 1 7 0 10 .Approved 0 0) ∈ exSt5w.reservations ∧
    ItemNotMaint exSt5w 1 ∧
    (((mkRes 1 1 7 0 10 .Approved 0 0).status = RStatus.Approved →
      (mkRes 1 1 7 0 10 .Approved 0 0).startDate ≤ 5 →
      (∃ r2 ∈ (sweepTick exSt5w 5).reservations,
        r2.id = (mkRes 1 1 7 0 10 .Approved 0 0).id ∧ r2.status = RStatus.Active) ∧
      ItemIs (sweepTick exSt5w 5) (mkRes 1 1 7 0 10 .Approved 0 0).itemId IStatus.InUse) ∧
    ((mkRes 1 1 7 0 10 .Approved 0 0).status = RStatus.Active →
      (mkRes 1 1 7 0 10 .Approved 0 0).returnDate ≤ 5 →
      (∃ r2 ∈ (sweepTick exSt5w 5).reservations,
        r2.id = (mkRes 1 1 7 0 10 .Approved 0 0).id ∧ r2.status = RStatus.Completed) ∧
      (OthersFree exSt5w (mkRes 1 1 7 0 10 .Approved 0 0).itemId
          (mkRes 1 1 7 0 10 .Approved 0 0).id →
        ItemIs (sweepTick exSt5w 5) (mkRes 1 1 7 0 10 .Approved 0 0).itemId
          IStatus.Available))) := by
  have h := c5_sweep_correctness exSt5w 5 (mkRes 1 1 7 0 10 .Approved 0 0)
    (by decide) (by decide) ⟨{ id := 1, status := IStatus.Reserved }, rfl, by decide⟩
  exact ⟨by decide, by decide,
    ⟨{ id := 1, status := IStatus.Reserved }, rfl, by decide⟩, h⟩

theorem c6_stale_write_race_witness :
    DistinctIds exSt6 ∧
    (mkRes 1 1 7 0 5 .Pending 3 0) ∈ exSt6.reservations ∧
    conflictIds exSt6.reservations 1 0 5 1 = [] ∧
    (∃ p1 p2,
      prepare exSt6 4 1 RStatus.Approved (Actor.admin 21) 3 none = .ok p1 ∧
      prepare exSt6 4 1 RStatus.Approved (Actor.admin 22) 3 none = .ok p2 ∧
      (∃ st1, commitWrite exSt6 p1 = .ok st1 ∧
        (∃ r1 ∈ st1.reservations, r1.id = 1 ∧ r1.status = RStatus.Approved ∧
          r1.version = 4) ∧
        commitWrite st1 p2 = .error .StaleWrite) ∧
      (∃ st2, commitWrite exSt6 p2 = .ok st2 ∧
        (∃ r1 ∈ st2.reservations, r1.id = 1 ∧ r1.status = RStatus.Approved ∧
          r1.version = 4) ∧
        commitWrite st2 p1 = .error .StaleWrite)) := by
  have h := c6_stale_write_race exSt6 4 (mkRes 1 1 7 0 5 .Pending 3 0) 21 22 3
    (by decide) (by decide) (by decide) (by decide) (by decide) (by decide)
  exact ⟨by decide, by decide, by decide, h⟩

theorem c7_adjacent_ok_witness :
    DistinctIds exSt7 ∧
    (mkRes 1 1 7 0 5 .Approved 0 0) ∈ exSt7.reservations ∧
    (mkRes 2 1 8 5 10 .Pending 0 1) ∈ exSt7.reservations ∧
    (mkRes 1 1 7 0 5 .Approved 0 0).returnDate = (mkRes 2 1 8 5 10 .Pending 0 1).startDate ∧
    (overlaps 0 5 5 10 = false ∧
    ∃ st2, transition exSt7 2 2 RStatus.Approved (Actor.admin 9) 0 none = .ok st2 ∧
      (applyTransition (mkRes 2 1 8 5 10 .Pending 0 1) RStatus.Approved
        (Actor.admin 9) none) ∈ st2.reservations ∧
      (applyTransition (mkRes 2 1 8 5 10 .Pending 0 1) RStatus.Approved
        (Actor.admin 9) none).status = RStatus.Approved ∧
      (mkRes 1 1 7 0 5 .Approved 0 0) ∈ st2.reservations ∧
      (mkRes 1 1 7 0 5 .Approved 0 0).status = RStatus.Approved) := by
  have h := c7_adjacent_ok exSt7 2 (mkRes 1 1 7 0 5 .Approved 0 0)
    (mkRes 2 1 8 5 10 .Pending 0 1) (Actor.admin 9) 0 none
    (by decide) (by decide) (by decide) (by decide) (by decide) (by decide)
    (by decide) (by decide) (by decide) (by decide) (by decide)
  exact ⟨by decide, by decide, by decide, by decide, h⟩

theorem c8_listing_order_witness :
    (listReservations exSt2 ⟨none, none, none, none⟩).Perm
      (exSt2.reservations.filter (matchesResFilter ⟨none, none, none, none⟩)) ∧
    (listReservations exSt2 ⟨none, none, none, none⟩).Pairwise
      (fun x y => y.createdAt ≤ x.createdAt) ∧
    ∀ c : Nat,
      (listReservations exSt2 ⟨none, none, none, none⟩).filter
        (fun r => r.createdAt == c) =
      (exSt2.reservations.filter (matchesResFilter ⟨none, none, none, none⟩)).filter
        (fun r => r.createdAt == c) :=
  c8_listing_order exSt2 ⟨none, none, none, none⟩

theorem c9_report_visibility_witness :
    exRep9 ∈ filteredReports [exRep9] exItems9 "" "all" "user" "u2" ∧
    ("user" = "admin" ∨ exRep9.reportedBy = "u2") :=
  ⟨by decide,
   c9_report_visibility [exRep9] exItems9 "" "all" "user" "u2" exRep9 (by decide)⟩

theorem c10_submit_guard_witness :
    ((∃ p, handleSubmitReport exForm "u1" = some p) ↔
      (exForm.itemId ≠ "" ∧ exForm.description.trim ≠ "")) ∧
    (∀ p, handleSubmitReport exForm "u1" = some p →
      p = { itemId := exForm.itemId, reportedBy := "u1",
            reportType := exForm.reportType, severity := exForm.severity,
            description := exForm.description }) :=
  c10_submit_guard exForm "u1"

end OInv
